import Mathlib

/-!
Verification development for the HTML component engine
(`src/engine/compiler.js` and `src/engine/utils.js`).

The engine is purely textual: it scans an HTML string with a fixed set of
JavaScript regular expressions, resolves component references against a file
system, binds props/children/variants into placeholder holes and splices the
recursively compiled result back into the document.

The embedding below models strings as `List Char`.  Each regular expression
used by the source is implemented as a deterministic matcher whose behaviour
coincides with the JS backtracking semantics of that particular pattern
(for each pattern the greedy/lazy sub-expressions are forced, which is argued
in the comment next to the matcher).  `String.prototype.replace` is modelled
including its `$`-substitution patterns (`$$`, `$&`, dollar-backtick,
dollar-quote), which JavaScript applies to the replacement string both for
string searches and for regexp searches without capture groups.

The file system is abstract: an `Env` maps paths to optional static markup
and to optional dynamic content producer modules.  The unbounded recursion of
`compileHtml` is modelled with explicit fuel (`none` = out of fuel).
-/

set_option maxRecDepth 4000

abbrev Str := List Char

def str (s : String) : Str := s.data

/- Character classes of the JS regexes involved. -/

def isJsWs (c : Char) : Bool :=
  c.toNat = 32 || c.toNat = 9 || c.toNat = 10 || c.toNat = 11 || c.toNat = 12 ||
  c.toNat = 13 || c.toNat = 160 || c.toNat = 5760 ||
  (8192 ≤ c.toNat && c.toNat ≤ 8202) ||
  c.toNat = 8232 || c.toNat = 8233 || c.toNat = 8239 || c.toNat = 8287 ||
  c.toNat = 12288 || c.toNat = 65279

def isWordChar (c : Char) : Bool :=
  (48 ≤ c.toNat && c.toNat ≤ 57) || (65 ≤ c.toNat && c.toNat ≤ 90) ||
  (97 ≤ c.toNat && c.toNat ≤ 122) || c.toNat = 95

def isKeyChar (c : Char) : Bool := isWordChar c || c.toNat = 45

def isLineTerm (c : Char) : Bool :=
  c.toNat = 10 || c.toNat = 13 || c.toNat = 8232 || c.toNat = 8233

def dollarChar : Char := Char.ofNat 36
def backtickChar : Char := Char.ofNat 96
def singleQuoteChar : Char := Char.ofNat 39

/- Strip a literal from the front of a string, returning the remainder. -/
def stripL : Str → Str → Option Str
  | [], l => some l
  | _ :: _, [] => none
  | p :: ps, c :: cs => if c = p then stripL ps cs else none

/- Substring test (used only in theorem statements and hypotheses). -/
def containsSub (pat : Str) : Str → Bool
  | [] => pat.isPrefixOf ([] : Str)
  | c :: t => pat.isPrefixOf (c :: t) || containsSub pat t

/- Split at the first occurrence of a literal substring: (before, after). -/
def splitAtSub (pat : Str) : Str → Option (Str × Str)
  | [] => match stripL pat ([] : Str) with
          | some r => some ([], r)
          | none => none
  | c :: t =>
    match stripL pat (c :: t) with
    | some rest => some ([], rest)
    | none => (splitAtSub pat t).map (fun pr => (c :: pr.1, pr.2))

/-
GetSubstitution semantics of `String.prototype.replace` for a string
replacement when the search has no capture groups: `$$` is a dollar,
`$&` the matched text, dollar-backtick the part of the subject before the
match, dollar-singlequote the part after it; any other `$` sequence
(including `$1` when there are no capture groups) is literal.
-/
def substDollar (matched before after : Str) : Str → Str
  | [] => []
  | [a] => [a]
  | a :: b :: r2 =>
    if a = dollarChar then
      if b = dollarChar then dollarChar :: substDollar matched before after r2
      else if b = '&' then matched ++ substDollar matched before after r2
      else if b = backtickChar then before ++ substDollar matched before after r2
      else if b = singleQuoteChar then after ++ substDollar matched before after r2
      else a :: b :: substDollar matched before after r2
    else a :: substDollar matched before after (b :: r2)

/- Result of matching a pattern at the start of a string. -/
structure MRes (α : Type) where
  matched : Str
  rest : Str
  data : α
deriving Repr

/- Leftmost match: try the matcher at every position, left to right. -/
def scanM {α : Type} (A : Str → Option (MRes α)) : Str → Option (Str × MRes α)
  | [] => (A ([] : Str)).map (fun m => (([] : Str), m))
  | c :: t =>
    match A (c :: t) with
    | some m => some (([] : Str), m)
    | none => (scanM A t).map (fun pr => (c :: pr.1, pr.2))

/- All non-overlapping matches, leftmost first (String.prototype.matchAll). -/
def matchAllAux {α : Type} (A : Str → Option (MRes α)) : Nat → Str → List (MRes α)
  | 0, _ => []
  | f + 1, l =>
    match scanM A l with
    | none => []
    | some (_, m) => m :: matchAllAux A f m.rest

def matchAllM {α : Type} (A : Str → Option (MRes α)) (l : Str) : List (MRes α) :=
  matchAllAux A (l.length + 1) l

/- Global regexp replace with a string replacement (String.prototype.replace
with the g flag); `done` is the already-consumed prefix of the subject, needed
for the dollar-backtick substitution pattern. -/
def replaceAllAux {α : Type} (A : Str → Option (MRes α)) (repl : Str) :
    Nat → Str → Str → Str
  | 0, _, l => l
  | f + 1, done, l =>
    match scanM A l with
    | none => l
    | some (pre, m) =>
      pre ++ substDollar m.matched (done ++ pre) m.rest repl ++
        replaceAllAux A repl f (done ++ pre ++ m.matched) m.rest

def replaceAllM {α : Type} (A : Str → Option (MRes α)) (repl : Str) (l : Str) : Str :=
  replaceAllAux A repl (l.length + 1) [] l

/- String-search replace (String.prototype.replace with a string first
argument): replaces only the first occurrence, with `$`-substitution. -/
def replaceFirstAux (pat repl : Str) : Str → Str → Str
  | before, [] =>
    if pat.isPrefixOf ([] : Str) then before ++ substDollar pat before [] repl else before
  | before, c :: t =>
    if pat.isPrefixOf (c :: t) then
      before ++ substDollar pat before ((c :: t).drop pat.length) repl ++ (c :: t).drop pat.length
    else replaceFirstAux pat repl (before ++ [c]) t

def replaceFirstStr (pat repl l : Str) : Str := replaceFirstAux pat repl [] l

/-
Matcher for the child-bearing component regex
  <Component\s+name="([^"]+)"([^>]*)>([\s\S]*?)<\/Component>
All greedy parts are forced: `\s+` is followed by the literal `n`, `[^"]+` by
`"`, `[^>]*` by `>`; the lazy `[\s\S]*?` matches up to the first occurrence
of the closing literal.
-/
structure ChildData where
  name : Str
  attrsStr : Str
  childrenRaw : Str
deriving Repr

def childMatchAt (l : Str) : Option (MRes ChildData) :=
  match stripL (str "<Component") l with
  | none => none
  | some r1 =>
    let ws := r1.takeWhile isJsWs
    if ws.isEmpty then none else
    match stripL (str "name=\"") (r1.dropWhile isJsWs) with
    | none => none
    | some r2 =>
      let nm := r2.takeWhile (fun c => c != '"')
      if nm.isEmpty then none else
      match r2.dropWhile (fun c => c != '"') with
      | '"' :: r3 =>
        let attrsS := r3.takeWhile (fun c => c != '>')
        match r3.dropWhile (fun c => c != '>') with
        | '>' :: r4 =>
          match splitAtSub (str "</Component>") r4 with
          | none => none
          | some (ch, rest) =>
            some { matched := str "<Component" ++ ws ++ str "name=\"" ++ nm ++
                     '"' :: attrsS ++ '>' :: ch ++ str "</Component>",
                   rest := rest,
                   data := ⟨nm, attrsS, ch⟩ }
        | _ => none
      | _ => none

/-
Matcher for the self-closing scan regex  <Component[^>]+\/>
A match at a position must use the first `>` after `<Component`; hence the
run of non-`>` characters must have length at least 2 and end in `/`.
-/
def selfMatchAt (l : Str) : Option (MRes Unit) :=
  match stripL (str "<Component") l with
  | none => none
  | some r1 =>
    let run := r1.takeWhile (fun c => c != '>')
    match r1.dropWhile (fun c => c != '>') with
    | '>' :: rest =>
      if 2 ≤ run.length then
        if run.getLastD '>' = '/' then
          some { matched := str "<Component" ++ run ++ ['>'], rest := rest, data := () }
        else none
      else none
    | _ => none

/-
Matcher for the attribute-extraction regex  <Component\s+([^>]+)\s*\/>
As above the `>` is forced to be the first `>`; the greedy `[^>]+` then takes
everything up to the character before the final `/`, leaving `\s*` empty, so
the capture is the non-`>` run without its final `/` (trailing whitespace is
kept inside the capture).
-/
def selfParseMatchAt (l : Str) : Option (MRes Str) :=
  match stripL (str "<Component") l with
  | none => none
  | some r1 =>
    let ws := r1.takeWhile isJsWs
    if ws.isEmpty then none else
    let r2 := r1.dropWhile isJsWs
    let t := r2.takeWhile (fun c => c != '>')
    match r2.dropWhile (fun c => c != '>') with
    | '>' :: rest =>
      if 2 ≤ t.length then
        if t.getLastD '>' = '/' then
          some { matched := str "<Component" ++ ws ++ t ++ ['>'], rest := rest,
                 data := t.dropLast }
        else none
      else none
    | _ => none

/-
Attribute scanner for  (\w+)="([^"]*)"  and  ([\w-]+)="([^"]*)"  (exec loop).
On failure at a position the regexp engine advances one character; a greedy
key run followed by `=` cannot profit from backtracking because a shorter run
is still followed by a key character.
-/
def attrScanAux (keyChar : Char → Bool) : Nat → Str → List (Str × Str)
  | 0, _ => []
  | _ + 1, [] => []
  | f + 1, c :: t =>
    let k := (c :: t).takeWhile keyChar
    if k.isEmpty then attrScanAux keyChar f t
    else
      match stripL (str "=\"") ((c :: t).dropWhile keyChar) with
      | none => attrScanAux keyChar f t
      | some r1 =>
        let v := r1.takeWhile (fun x => x != '"')
        match r1.dropWhile (fun x => x != '"') with
        | '"' :: rest => (k, v) :: attrScanAux keyChar f rest
        | _ => attrScanAux keyChar f t

/- JS object property assignment on a plain object: a later assignment to an
existing key overwrites the value but keeps the key's position. -/
def insertAttr (l : List (Str × Str)) (k v : Str) : List (Str × Str) :=
  if l.any (fun kv => kv.1 = k)
  then l.map (fun kv => if kv.1 = k then (k, v) else kv)
  else l ++ [(k, v)]

def attrPairs (keyChar : Char → Bool) (l : Str) : List (Str × Str) :=
  (attrScanAux keyChar (l.length + 1) l).foldl (fun acc kv => insertAttr acc kv.1 kv.2) []

def parseAttributes (attrsStr : Str) : List (Str × Str) := attrPairs isWordChar attrsStr

def parseSelfClosingComponentTag (tag : Str) : Option (List (Str × Str)) :=
  match scanM selfParseMatchAt tag with
  | none => none
  | some (_, m) => some (attrPairs isKeyChar m.data)

def parseComponentTag (tag : Str) : Option (List (Str × Str)) :=
  parseSelfClosingComponentTag tag

def lookupA : List (Str × Str) → Str → Option Str
  | [], _ => none
  | kv :: t, k => if kv.1 = k then some kv.2 else lookupA t k

/-
Matcher for the placeholder regexes  \{\{\s*KEY\s*\}\}  where KEY is a
literal made of word characters and hyphens (or the literals `children` and
`variantClasses`): both `\s*` are forced because they are followed by a
non-whitespace character.
-/
def phMatchAt (key : Str) (l : Str) : Option (MRes Unit) :=
  match stripL (str "\x7b\x7b") l with
  | none => none
  | some r1 =>
    let w1 := r1.takeWhile isJsWs
    match stripL key (r1.dropWhile isJsWs) with
    | none => none
    | some r2 =>
      let w2 := r2.takeWhile isJsWs
      match stripL (str "\x7d\x7d") (r2.dropWhile isJsWs) with
      | none => none
      | some rest =>
        some { matched := str "\x7b\x7b" ++ w1 ++ key ++ w2 ++ str "\x7d\x7d",
               rest := rest, data := () }

/- Matcher for the cleanup regex  \{\{\s*\w+\s*\}\}  -/
def cleanupMatchAt (l : Str) : Option (MRes Unit) :=
  match stripL (str "\x7b\x7b") l with
  | none => none
  | some r1 =>
    let w1 := r1.takeWhile isJsWs
    let r2 := r1.dropWhile isJsWs
    let w := r2.takeWhile isWordChar
    if w.isEmpty then none else
    let r3 := r2.dropWhile isWordChar
    let w2 := r3.takeWhile isJsWs
    match stripL (str "\x7d\x7d") (r3.dropWhile isJsWs) with
    | none => none
    | some rest =>
      some { matched := str "\x7b\x7b" ++ w1 ++ w ++ w2 ++ str "\x7d\x7d",
             rest := rest, data := () }

def cleanUnusedPlaceholders (html : Str) : Str := replaceAllM cleanupMatchAt [] html

/-
Matcher for the variants directive regex  <!--\s*variants:\s*(.+?)\s*-->
The `\s*` before `variants:` and the `\s*` before `-->` are forced; the
`\s*` after `variants:` is greedy (longest run tried first) and the lazy
`(.+?)` grows from length 1; `.` excludes line terminators.
-/
def vMatchAt (l : Str) : Option (MRes Str) :=
  match stripL (str "<!--") l with
  | none => none
  | some r1 =>
    match stripL (str "variants:") (r1.dropWhile isJsWs) with
    | none => none
    | some r2 =>
      let wmax := (r2.takeWhile isJsWs).length
      match (List.range (wmax + 1)).reverse.findSome? (fun b =>
        let r := r2.drop b
        let dmax := (r.takeWhile (fun c => !(isLineTerm c))).length
        (List.range dmax).findSome? (fun k0 =>
          let k := k0 + 1
          let rest0 := r.drop k
          match stripL (str "-->") (rest0.dropWhile isJsWs) with
          | some after => some (r.take k, after)
          | none => none)) with
      | none => none
      | some (cap, after) =>
        some { matched := l.take (l.length - after.length), rest := after, data := cap }

/- String.prototype.split on a single-character separator. -/
def splitOnChar (c : Char) : Str → List Str
  | [] => [[]]
  | x :: t =>
    if x = c then [] :: splitOnChar c t
    else
      match splitOnChar c t with
      | [] => [[x]]
      | h :: r => (x :: h) :: r

/- Array.prototype.join with separator "=". -/
def joinEq : List Str → Str
  | [] => []
  | [x] => x
  | x :: y :: r => x ++ '=' :: joinEq (y :: r)

/- String.prototype.trim (JS whitespace set). -/
def trimJs (l : Str) : Str := ((l.dropWhile isJsWs).reverse.dropWhile isJsWs).reverse

def parseVariants (html : Str) : List (Str × Str) :=
  match scanM vMatchAt html with
  | none => []
  | some (_, m) =>
    (splitOnChar ',' m.data).foldl (fun acc pair =>
      match splitOnChar '=' pair with
      | [] => acc
      | nm :: parts =>
        let classes := joinEq parts
        if nm.isEmpty || classes.isEmpty then acc
        else insertAttr acc (trimJs nm) (trimJs classes)) []

def normalizePath (p : Str) : Str := p.map (fun c => if c = '\\' then '/' else c)

/- node path.posix.dirname -/
def dirname (p : Str) : Str :=
  match p with
  | [] => ['.']
  | c0 :: _ =>
    let hasRoot := c0 = '/'
    let r3 := ((p.reverse.dropWhile (fun c => c = '/')).dropWhile (fun c => c != '/'))
    if r3.length ≤ 1 then (if hasRoot then ['/'] else ['.'])
    else if hasRoot && r3.length - 1 = 1 then str "//"
    else p.take (r3.length - 1)

def pathJoin (a b : Str) : Str := a ++ '/' :: b

/- The primary export of a dynamic content producer module: either a callable
(invoked with a props object) or a non-callable value (used stringified). -/
inductive JsExport where
  | fn (f : List (Str × Str) → Str)
  | val (s : Str)

/- Abstract read-only file system: static markup files and importable
dynamic content producer modules, both keyed by path. -/
structure Env where
  htmlFile : Str → Option Str
  jsModule : Str → Option JsExport

/- One probe of loadComponent's search loop: markup file first, then the
`.js` path obtained by replacing the first occurrence of ".html" in the
candidate path (componentPath.replace('.html', '.js')). -/
def loadOne (env : Env) (attrs : List (Str × Str)) (htmlPath : Str) : Option Str :=
  match env.htmlFile htmlPath with
  | some content => some content
  | none =>
    let jsPath := replaceFirstStr (str ".html") (str ".js") htmlPath
    match env.jsModule jsPath with
    | some (JsExport.fn f) =>
        some (f (attrs.filter (fun kv => !(kv.1 == str "src") && !(kv.1 == str "name"))))
    | some (JsExport.val s) => some s
    | none => none

def componentCandidatePaths (name root projectRoot : Str) : List Str :=
  let n := normalizePath name
  [ pathJoin root (str "components" ++ '/' :: n ++ str ".html"),
    pathJoin projectRoot (str "src/components" ++ '/' :: n ++ str ".html"),
    pathJoin projectRoot (str "components" ++ '/' :: n ++ str ".html") ]

def loadComponent (env : Env) (name root projectRoot : Str)
    (attrs : List (Str × Str)) : Option Str :=
  match componentCandidatePaths name root projectRoot with
  | [p1, p2, p3] =>
    (match loadOne env attrs p1 with
     | some c => some c
     | none =>
       match loadOne env attrs p2 with
       | some c => some c
       | none => loadOne env attrs p3)
  | _ => none

def notFoundMarker (name : Str) : Str :=
  str "<!-- Component \"" ++ name ++ str "\" not found -->"

/- Prop binding: one global placeholder replace per attribute, in object
entry order. -/
def applyProps (attrs : List (Str × Str)) (content : Str) : Str :=
  attrs.foldl (fun acc kv => replaceAllM (phMatchAt kv.1) kv.2 acc) content

/- Body of the loop of processComponentsWithChildren for one match. -/
def processOneChild (env : Env) (cmp : Str → Option Str) (root eff : Str)
    (result : Str) (m : MRes ChildData) : Option Str :=
  let children := trimJs m.data.childrenRaw
  let attrs := parseAttributes m.data.attrsStr
  match loadComponent env m.data.name root eff attrs with
  | none => some (replaceFirstStr m.matched (notFoundMarker m.data.name) result)
  | some c0 =>
    let c1 := replaceAllM (phMatchAt (str "children")) children c0
    let c2 := applyProps attrs c1
    (cmp c2).map (fun compiled => replaceFirstStr m.matched compiled result)

def processComponentsWithChildren (env : Env) (cmp : Str → Option Str)
    (root eff html : Str) : Option Str :=
  (matchAllM childMatchAt html).foldlM (processOneChild env cmp root eff) html

/- Prop/variant binding of the self-closing pass, in object entry order:
the `variant` key replaces {{ variantClasses }} when its value has a truthy
entry in the variant table; `src` and `variant` are never bound as ordinary
placeholders. -/
def applySelfProps (vars attrs : List (Str × Str)) (content : Str) : Str :=
  attrs.foldl (fun acc kv =>
    if kv.1 = str "variant" then
      match lookupA vars kv.2 with
      | some cls =>
        if cls.isEmpty then acc
        else replaceAllM (phMatchAt (str "variantClasses")) cls acc
      | none => acc
    else if kv.1 = str "src" then acc
    else replaceAllM (phMatchAt kv.1) kv.2 acc) content

/- Body of the loop of processSelfClosingComponents for one match. -/
def processOneSelf (env : Env) (cmp : Str → Option Str) (root eff : Str)
    (result : Str) (m : MRes Unit) : Option Str :=
  let tag := m.matched
  match parseSelfClosingComponentTag tag with
  | none => some result
  | some attrs =>
    match lookupA attrs (str "src") with
    | none => some result
    | some srcv =>
      if srcv.isEmpty then some result
      else
        match loadComponent env srcv root eff attrs with
        | none => some (replaceFirstStr tag (notFoundMarker srcv) result)
        | some c0 =>
          let vars := parseVariants c0
          let c1 := applySelfProps vars attrs c0
          let c2 := replaceAllM (phMatchAt (str "variantClasses")) [] c1
          (cmp c2).map (fun compiled => replaceFirstStr tag compiled result)

def processSelfClosingComponents (env : Env) (cmp : Str → Option Str)
    (root eff html : Str) : Option Str :=
  (matchAllM selfMatchAt html).foldlM (processOneSelf env cmp root eff) html

/- projectRoot || path.dirname(root): null/absent and the empty string are
falsy, so both fall back to the parent directory of root. -/
def effectiveProjectRoot (root : Str) (projectRoot : Option Str) : Str :=
  match projectRoot with
  | none => dirname root
  | some p => if p.isEmpty then dirname root else p

/- compileHtml(html, root, projectRoot): children-bearing pass first, then
the self-closing pass over the updated string; recursion fuelled. -/
def compileHtml (env : Env) : Nat → Str → Str → Option Str → Option Str
  | 0, _, _, _ => none
  | fuel + 1, html, root, projectRoot =>
    let eff := effectiveProjectRoot root projectRoot
    let cmp := fun c => compileHtml env fuel c root (some eff)
    match processComponentsWithChildren env cmp root eff html with
    | none => none
    | some r1 => processSelfClosingComponents env cmp root eff r1

/-! ## Concrete environments used in counterexamples and witnesses -/

def env0 : Env := { htmlFile := fun _ => none, jsModule := fun _ => none }

/- A.html is the bare children slot. -/
def envNest : Env where
  htmlFile := fun p =>
    if p = str "r/components/A.html" then some (str "\x7b\x7b children \x7d\x7d") else none
  jsModule := fun _ => none

/- As envNest, and B.html exists as well. -/
def envNestB : Env where
  htmlFile := fun p =>
    if p = str "r/components/A.html" then some (str "\x7b\x7b children \x7d\x7d")
    else if p = str "r/components/B.html" then some (str "<b>\x7b\x7b children \x7d\x7d</b>")
    else none
  jsModule := fun _ => none

/- Card template with a title placeholder and a children slot. -/
def envCard : Env where
  htmlFile := fun p =>
    if p = str "r/components/Card.html" then
      some (str "<div>\x7b\x7b title \x7d\x7d\x7b\x7b children \x7d\x7d</div>")
    else none
  jsModule := fun _ => none

/- Card template whose content is exactly the children slot. -/
def envSlot : Env where
  htmlFile := fun p =>
    if p = str "r/components/Card.html" then some (str "\x7b\x7b children \x7d\x7d") else none
  jsModule := fun _ => none

/- Card2 template with only a title placeholder. -/
def envTitle : Env where
  htmlFile := fun p =>
    if p = str "r/components/Card2.html" then some (str "<div>\x7b\x7b title \x7d\x7d</div>")
    else none
  jsModule := fun _ => none

/- Button-like component whose variant class list contains dollar patterns. -/
def envVarDollar : Env where
  htmlFile := fun p =>
    if p = str "r/components/B.html" then
      some (str "<!-- variants: p=$$x -->\x7b\x7b variantClasses \x7d\x7d")
    else none
  jsModule := fun _ => none

/- The spec's variant example component. -/
def envBtn : Env where
  htmlFile := fun p =>
    if p = str "r/components/Btn.html" then
      some (str "<!-- variants: primary=btn-primary -->\n<a class=\"\x7b\x7b variantClasses \x7d\x7d\">\x7b\x7b text \x7d\x7d</a>")
    else none
  jsModule := fun _ => none

/- A dynamic content producer module sitting at the path stem plus ".js"
for the identifier "A.html" (which the claim predicts would be probed). -/
def envDotHtml : Env where
  htmlFile := fun _ => none
  jsModule := fun p =>
    if p = str "r/components/A.html.js" then some (JsExport.val (str "X")) else none

/-! ## Counterexamples -/

/-- C1: counterexample.  For the input
`<Component name="A"><Component name="B">x</Component></Component>` with
`A.html` containing only the children slot, the non-greedy close-tag match of
the child-bearing scanner binds to the inner `</Component>`; the verbatim
children splice then reassembles the inner reference, which is never scanned
again.  The compiled output is literally `<Component name="B">x</Component>`:
a raw, well-formed child-bearing component reference present in the input
survives into the output, refuting the claimed invariant. -/
theorem c1_counterexample :
    compileHtml envNest 5
      (str "<Component name=\"A\"><Component name=\"B\">x</Component></Component>")
      (str "r") (some (str "p"))
      = some (str "<Component name=\"B\">x</Component>") ∧
    containsSub (str "<Component") (str "<Component name=\"B\">x</Component>") = true := by
  exact ⟨by decide, by decide⟩

/-- C2: counterexample.  The identifier `$&` resolves to no file, yet the
output of compiling `<Component src="$&" />` is not the literal marker:
`String.prototype.replace` rewrites `$&` inside the replacement string to the
matched tag, so the output contains a `<Component` substring and does not
contain the claimed literal marker `<!-- Component "$&" not found -->`. -/
theorem c2_counterexample :
    compileHtml env0 5 (str "<Component src=\"$&\" />") (str "r") (some (str "p"))
      = some (str "<!-- Component \"<Component src=\"$&\" />\" not found -->") ∧
    containsSub (str "<Component")
      (str "<!-- Component \"<Component src=\"$&\" />\" not found -->") = true ∧
    containsSub (str "<!-- Component \"$&\" not found -->")
      (str "<!-- Component \"<Component src=\"$&\" />\" not found -->") = false := by
  refine ⟨by decide, by decide, by decide⟩

/-- C3: counterexample.  With `A.html` the bare children slot and `B.html`
present, one compile of the nested input yields
`<Component name="B">x</Component>` (a surviving reference), and compiling
that output again expands `B`, so compile of compile differs from compile. -/
theorem c3_counterexample :
    compileHtml envNestB 5
      (str "<Component name=\"A\"><Component name=\"B\">x</Component></Component>")
      (str "r") (some (str "p"))
      = some (str "<Component name=\"B\">x</Component>") ∧
    compileHtml envNestB 5 (str "<Component name=\"B\">x</Component>")
      (str "r") (some (str "p"))
      = some (str "<b>x</b>") ∧
    str "<Component name=\"B\">x</Component>" ≠ str "<b>x</b>" := by
  refine ⟨by decide, by decide, by decide⟩

/-- C5: counterexample.  Children markup `$$` is not spliced verbatim into
the `children` placeholder: the JS replacement-string substitution rewrites
`$$` to a single `$`, so the compiled output is `$`, not `$$`. -/
theorem c5_counterexample :
    compileHtml envSlot 5 (str "<Component name=\"Card\">$$</Component>")
      (str "r") (some (str "p")) = some (str "$") ∧
    str "$" ≠ str "$$" := by
  refine ⟨by decide, by decide⟩

/-- C6: counterexample.  A matching variant entry whose class list is `$$x`
is not substituted as that class list: the replacement-string substitution
rewrites it to `$x` (and the splice of the compiled content back into the
document applies the same rewriting to the retained directive comment), so
the entry's class list `$$x` never appears in the output. -/
theorem c6_counterexample :
    compileHtml envVarDollar 5 (str "<Component src=\"B\" variant=\"p\" />")
      (str "r") (some (str "p"))
      = some (str "<!-- variants: p=$x -->$x") ∧
    containsSub (str "$$x") (str "<!-- variants: p=$x -->$x") = false := by
  refine ⟨by decide, by decide⟩

/-- C7: counterexample.  In the directive `variants: a= , b=c` the first
pair has the class value " " (a single space): it is non-empty before
trimming, so the code keeps the entry and stores it with the empty trimmed
class value — the claim says an entry whose class value is empty after
trimming is dropped. -/
theorem c7_counterexample :
    parseVariants (str "<!-- variants: a= , b=c -->")
      = [(str "a", str ""), (str "b", str "c")] ∧
    lookupA (parseVariants (str "<!-- variants: a= , b=c -->")) (str "a") = some [] := by
  refine ⟨by decide, by decide⟩

/-- C4: counterexample.  For the identifier `A.html` the code derives the
dynamic-producer path by replacing the FIRST occurrence of ".html" in the
candidate path, probing `r/components/A.js.html` instead of the path stem
with the `.js` extension (`r/components/A.html.js`).  With a module at the
claimed stem path, resolution fails while the claimed algorithm (modelled
below as `resolveComponentSpec`) succeeds. -/
theorem c4_counterexample :
    loadComponent envDotHtml (str "A.html") (str "r") (str "p") [] = none ∧
    replaceFirstStr (str ".html") (str ".js") (str "r/components/A.html.html")
      = str "r/components/A.js.html" := by
  refine ⟨by decide, by decide⟩

/-! ## Toolkit lemmas about the string machinery -/

lemma stripL_some_eq : ∀ (p l r : Str), stripL p l = some r → l = p ++ r := by
  intro p
  induction p with
  | nil => intro l r h; simp [stripL] at h; simp [h]
  | cons a ps ih =>
    intro l r h
    cases l with
    | nil => simp [stripL] at h
    | cons c cs =>
      simp only [stripL] at h
      by_cases e : c = a
      · rw [if_pos e] at h
        have := ih cs r h
        simp [e, this]
      · rw [if_neg e] at h
        cases h

lemma stripL_append_self : ∀ (p r : Str), stripL p (p ++ r) = some r := by
  intro p
  induction p with
  | nil => intro r; rfl
  | cons a ps ih => intro r; simp [stripL, ih]

lemma isPrefixOf_append_self : ∀ (p r : Str), p.isPrefixOf (p ++ r) = true := by
  intro p
  induction p with
  | nil => intro r; simp [List.isPrefixOf]
  | cons a ps ih => intro r; simp [List.isPrefixOf, ih]

lemma takeWhile_append_all (p : Char → Bool) :
    ∀ (l₁ l₂ : Str), (∀ c ∈ l₁, p c = true) →
      (l₁ ++ l₂).takeWhile p = l₁ ++ l₂.takeWhile p := by
  intro l₁
  induction l₁ with
  | nil => intro l₂ _; rfl
  | cons a t ih =>
    intro l₂ h
    have ha : p a = true := h a (by simp)
    simp only [List.cons_append, List.takeWhile]
    rw [ha]
    simp [ih l₂ (fun c hc => h c (by simp [hc]))]

lemma dropWhile_append_all (p : Char → Bool) :
    ∀ (l₁ l₂ : Str), (∀ c ∈ l₁, p c = true) →
      (l₁ ++ l₂).dropWhile p = l₂.dropWhile p := by
  intro l₁
  induction l₁ with
  | nil => intro l₂ _; rfl
  | cons a t ih =>
    intro l₂ h
    have ha : p a = true := h a (by simp)
    simp only [List.cons_append, List.dropWhile]
    rw [ha]
    exact ih l₂ (fun c hc => h c (by simp [hc]))

lemma takeWhile_cons_false (p : Char → Bool) (a : Char) (l : Str) (h : p a = false) :
    (a :: l).takeWhile p = [] := by
  simp [List.takeWhile, h]

lemma dropWhile_cons_false (p : Char → Bool) (a : Char) (l : Str) (h : p a = false) :
    (a :: l).dropWhile p = a :: l := by
  simp [List.dropWhile, h]

lemma takeWhile_nil_of_all_false (p : Char → Bool) :
    ∀ (l : Str), (∀ c ∈ l, p c = false) → l.takeWhile p = [] := by
  intro l h
  cases l with
  | nil => rfl
  | cons a t => exact takeWhile_cons_false p a t (h a (by simp))

lemma substDollar_cons₂ (m b a : Str) (x y : Char) (r2 : Str) :
    substDollar m b a (x :: y :: r2) =
      if x = dollarChar then
        if y = dollarChar then dollarChar :: substDollar m b a r2
        else if y = '&' then m ++ substDollar m b a r2
        else if y = backtickChar then b ++ substDollar m b a r2
        else if y = singleQuoteChar then a ++ substDollar m b a r2
        else x :: y :: substDollar m b a r2
      else x :: substDollar m b a (y :: r2) := rfl

lemma substDollar_no_dollar : ∀ (r m b a : Str),
    (∀ c ∈ r, c ≠ dollarChar) → substDollar m b a r = r := by
  intro r
  induction r with
  | nil => intro m b a _; rfl
  | cons x t ih =>
    intro m b a h
    have hx : x ≠ dollarChar := h x (by simp)
    cases t with
    | nil => rfl
    | cons y t2 =>
      rw [substDollar_cons₂, if_neg hx, ih m b a (fun c hc => h c (by simp [hc]))]

lemma scanM_none_of_safe {α : Type} (A : Str → Option (MRes α)) (hd : Char)
    (hA : ∀ u m, A u = some m → ∃ t, u = hd :: t) :
    ∀ l : Str, (∀ c ∈ l, c ≠ hd) → scanM A l = none := by
  intro l
  induction l with
  | nil =>
    intro _
    cases e : A ([] : Str) with
    | none => simp [scanM, e]
    | some m =>
      obtain ⟨t, ht⟩ := hA ([] : Str) m e
      cases ht
  | cons c t ih =>
    intro h
    simp only [scanM]
    cases e : A (c :: t) with
    | some m =>
      obtain ⟨u, hu⟩ := hA _ m e
      have hc : c = hd := by injection hu
      exact absurd hc (h c (by simp))
    | none =>
      rw [ih (fun x hx => h x (by simp [hx]))]
      rfl

lemma scanM_none_of_not_contains {α : Type} (A : Str → Option (MRes α)) (lit : Str)
    (hA : ∀ u m, A u = some m → lit.isPrefixOf u = true) :
    ∀ l : Str, containsSub lit l = false → scanM A l = none := by
  intro l
  induction l with
  | nil =>
    intro h
    cases e : A ([] : Str) with
    | none => simp [scanM, e]
    | some m =>
      have := hA ([] : Str) m e
      simp [containsSub, this] at h
  | cons c t ih =>
    intro h
    simp only [containsSub, Bool.or_eq_false_iff] at h
    simp only [scanM]
    cases e : A (c :: t) with
    | some m =>
      have := hA _ m e
      rw [this] at h
      exact absurd h.1 (by simp)
    | none =>
      rw [ih h.2]
      rfl

lemma scanM_at_head {α : Type} (A : Str → Option (MRes α)) (l : Str) (m : MRes α)
    (h : A l = some m) : scanM A l = some ([], m) := by
  cases l with
  | nil => simp [scanM, h]
  | cons c t => simp [scanM, h]

lemma matchAllAux_succ {α : Type} (A : Str → Option (MRes α)) (f : Nat) (l : Str) :
    matchAllAux A (f + 1) l =
      match scanM A l with
      | none => []
      | some (_, m) => m :: matchAllAux A f m.rest := rfl

lemma matchAllAux_nil {α : Type} (A : Str → Option (MRes α)) (hA0 : A ([] : Str) = none) :
    ∀ f, matchAllAux A f [] = [] := by
  intro f
  cases f with
  | zero => rfl
  | succ f =>
    rw [matchAllAux_succ, show scanM A [] = none by simp [scanM, hA0]]

lemma matchAllM_nil_of_scan_none {α : Type} (A : Str → Option (MRes α)) (l : Str)
    (h : scanM A l = none) : matchAllM A l = [] := by
  rw [matchAllM, matchAllAux_succ, h]

lemma matchAllM_single {α : Type} (A : Str → Option (MRes α)) (l pre : Str) (m : MRes α)
    (hscan : scanM A l = some (pre, m)) (hrest : m.rest = [])
    (hA0 : A ([] : Str) = none) : matchAllM A l = [m] := by
  rw [matchAllM, matchAllAux_succ, hscan]
  simp only [hrest, matchAllAux_nil A hA0]

lemma replaceAllAux_succ {α : Type} (A : Str → Option (MRes α)) (repl : Str)
    (f : Nat) (done l : Str) :
    replaceAllAux A repl (f + 1) done l =
      match scanM A l with
      | none => l
      | some (pre, m) =>
        pre ++ substDollar m.matched (done ++ pre) m.rest repl ++
          replaceAllAux A repl f (done ++ pre ++ m.matched) m.rest := rfl

lemma replaceAllAux_nil {α : Type} (A : Str → Option (MRes α)) (repl : Str)
    (hA0 : A ([] : Str) = none) : ∀ f done, replaceAllAux A repl f done [] = [] := by
  intro f done
  cases f with
  | zero => rfl
  | succ f =>
    rw [replaceAllAux_succ, show scanM A [] = none by simp [scanM, hA0]]

lemma replaceAllM_id_of_scan_none {α : Type} (A : Str → Option (MRes α)) (repl l : Str)
    (h : scanM A l = none) : replaceAllM A repl l = l := by
  rw [replaceAllM, replaceAllAux_succ, h]

lemma replaceAllM_whole {α : Type} (A : Str → Option (MRes α)) (repl l : Str) (m : MRes α)
    (hscan : scanM A l = some ([], m)) (hrest : m.rest = [])
    (hA0 : A ([] : Str) = none) :
    replaceAllM A repl l = substDollar m.matched [] [] repl := by
  rw [replaceAllM, replaceAllAux_succ, hscan]
  simp only [hrest, replaceAllAux_nil A repl hA0]
  simp

lemma replaceFirstStr_self (pat repl : Str) (hne : pat ≠ []) :
    replaceFirstStr pat repl pat = substDollar pat [] [] repl := by
  cases pat with
  | nil => exact absurd rfl hne
  | cons c t =>
    simp only [replaceFirstStr, replaceFirstAux]
    rw [if_pos]
    · rw [show ((c :: t).drop (c :: t).length) = ([] : Str) from List.drop_length _]
      simp
    · have := isPrefixOf_append_self (c :: t) []
      rw [List.append_nil] at this
      exact this

lemma containsSub_append_false (h0 : Char) (lt : Str) :
    ∀ (l₁ l₂ : Str), (∀ c ∈ l₁, c ≠ h0) → containsSub (h0 :: lt) l₂ = false →
      containsSub (h0 :: lt) (l₁ ++ l₂) = false := by
  intro l₁
  induction l₁ with
  | nil => intro l₂ _ h₂; exact h₂
  | cons c t ih =>
    intro l₂ h₁ h₂
    simp only [List.cons_append, containsSub, Bool.or_eq_false_iff]
    constructor
    · simp only [List.isPrefixOf]
      have : (h0 == c) = false := by
        have := h₁ c (by simp)
        simp [beq_eq_false_iff_ne]
        exact fun e => this e.symm
      rw [this]
      rfl
    · exact ih l₂ (fun x hx => h₁ x (by simp [hx])) h₂

lemma containsSub_nil_false (h0 : Char) (lt : Str) :
    containsSub (h0 :: lt) [] = false := by
  simp [containsSub, List.isPrefixOf]

/-! ## Character class facts -/

def isIdentChar (c : Char) : Bool := isWordChar c || c.toNat = 47

lemma wordChar_not_ws (c : Char) (h : isWordChar c = true) : isJsWs c = false := by
  simp only [isWordChar, Bool.or_eq_true, Bool.and_eq_true, decide_eq_true_eq] at h
  simp only [isJsWs, Bool.or_eq_false_iff, Bool.and_eq_false_iff,
    decide_eq_false_iff_not]
  omega

lemma identChar_ne_lt (c : Char) (h : isIdentChar c = true) : c ≠ '<' := by
  intro e; rw [e] at h; exact absurd h (by decide)

lemma identChar_ne_gt (c : Char) (h : isIdentChar c = true) : c ≠ '>' := by
  intro e; rw [e] at h; exact absurd h (by decide)

lemma identChar_ne_quote (c : Char) (h : isIdentChar c = true) : c ≠ '"' := by
  intro e; rw [e] at h; exact absurd h (by decide)

lemma identChar_ne_dollar (c : Char) (h : isIdentChar c = true) : c ≠ dollarChar := by
  intro e; rw [e] at h; exact absurd h (by decide)

lemma wordChar_ne_lbrace (c : Char) (h : isWordChar c = true) : c ≠ Char.ofNat 123 := by
  intro e; rw [e] at h; exact absurd h (by decide)

/-! ## Matcher prefix facts -/

lemma isPrefixOf_of_stripL (lit u r : Str) (h : stripL lit u = some r) :
    lit.isPrefixOf u = true := by
  rw [stripL_some_eq _ _ _ h]
  exact isPrefixOf_append_self _ _

lemma childMatchAt_lit : ∀ (u : Str) (m : MRes ChildData), childMatchAt u = some m →
    (str "<Component").isPrefixOf u = true := by
  intro u m h
  cases e : stripL (str "<Component") u with
  | none =>
    simp only [childMatchAt, e] at h
    exact Option.noConfusion h
  | some r1 => exact isPrefixOf_of_stripL _ _ _ e

lemma selfMatchAt_lit : ∀ (u : Str) (m : MRes Unit), selfMatchAt u = some m →
    (str "<Component").isPrefixOf u = true := by
  intro u m h
  cases e : stripL (str "<Component") u with
  | none =>
    simp only [selfMatchAt, e] at h
    exact Option.noConfusion h
  | some r1 => exact isPrefixOf_of_stripL _ _ _ e

lemma selfParseMatchAt_lit : ∀ (u : Str) (m : MRes Str), selfParseMatchAt u = some m →
    (str "<Component").isPrefixOf u = true := by
  intro u m h
  cases e : stripL (str "<Component") u with
  | none =>
    simp only [selfParseMatchAt, e] at h
    exact Option.noConfusion h
  | some r1 => exact isPrefixOf_of_stripL _ _ _ e

lemma phMatchAt_lit (key : Str) : ∀ (u : Str) (m : MRes Unit), phMatchAt key u = some m →
    (str "\x7b\x7b").isPrefixOf u = true := by
  intro u m h
  cases e : stripL (str "\x7b\x7b") u with
  | none =>
    simp only [phMatchAt, e] at h
    exact Option.noConfusion h
  | some r1 => exact isPrefixOf_of_stripL _ _ _ e

lemma cleanupMatchAt_lit : ∀ (u : Str) (m : MRes Unit), cleanupMatchAt u = some m →
    (str "\x7b\x7b").isPrefixOf u = true := by
  intro u m h
  cases e : stripL (str "\x7b\x7b") u with
  | none =>
    simp only [cleanupMatchAt, e] at h
    exact Option.noConfusion h
  | some r1 => exact isPrefixOf_of_stripL _ _ _ e

lemma head_of_isPrefixOf (c0 : Char) (lt u : Str)
    (h : (c0 :: lt).isPrefixOf u = true) : ∃ t, u = c0 :: t := by
  cases u with
  | nil => simp [List.isPrefixOf] at h
  | cons c t =>
    simp only [List.isPrefixOf, Bool.and_eq_true, beq_iff_eq] at h
    exact ⟨t, by rw [h.1]⟩

lemma childMatchAt_head : ∀ (u : Str) (m : MRes ChildData), childMatchAt u = some m →
    ∃ t, u = '<' :: t := by
  intro u m h
  exact head_of_isPrefixOf _ _ _ (childMatchAt_lit u m h)

lemma selfMatchAt_head : ∀ (u : Str) (m : MRes Unit), selfMatchAt u = some m →
    ∃ t, u = '<' :: t := by
  intro u m h
  exact head_of_isPrefixOf _ _ _ (selfMatchAt_lit u m h)

lemma selfParseMatchAt_head : ∀ (u : Str) (m : MRes Str), selfParseMatchAt u = some m →
    ∃ t, u = '<' :: t := by
  intro u m h
  exact head_of_isPrefixOf _ _ _ (selfParseMatchAt_lit u m h)

lemma cleanupMatchAt_head : ∀ (u : Str) (m : MRes Unit), cleanupMatchAt u = some m →
    ∃ t, u = Char.ofNat 123 :: t := by
  intro u m h
  exact head_of_isPrefixOf _ _ _ (cleanupMatchAt_lit u m h)

lemma childMatchAt_none_nil : childMatchAt ([] : Str) = none := rfl
lemma selfMatchAt_none_nil : selfMatchAt ([] : Str) = none := rfl
lemma phMatchAt_none_nil (key : Str) : phMatchAt key ([] : Str) = none := rfl
lemma cleanupMatchAt_none_nil : cleanupMatchAt ([] : Str) = none := rfl

/-! ## Compile is the identity on component-free text -/

lemma compileHtml_succ (env : Env) (f : Nat) (html root : Str) (proj : Option Str) :
    compileHtml env (f + 1) html root proj =
      (match processComponentsWithChildren env
          (fun c => compileHtml env f c root (some (effectiveProjectRoot root proj)))
          root (effectiveProjectRoot root proj) html with
       | none => none
       | some r1 => processSelfClosingComponents env
          (fun c => compileHtml env f c root (some (effectiveProjectRoot root proj)))
          root (effectiveProjectRoot root proj) r1) := rfl

lemma processChildren_id (env : Env) (cmp : Str → Option Str) (root eff h : Str)
    (hc : containsSub (str "<Component") h = false) :
    processComponentsWithChildren env cmp root eff h = some h := by
  rw [processComponentsWithChildren,
    matchAllM_nil_of_scan_none _ _
      (scanM_none_of_not_contains childMatchAt (str "<Component") childMatchAt_lit h hc)]
  rfl

lemma processSelf_id (env : Env) (cmp : Str → Option Str) (root eff h : Str)
    (hc : containsSub (str "<Component") h = false) :
    processSelfClosingComponents env cmp root eff h = some h := by
  rw [processSelfClosingComponents,
    matchAllM_nil_of_scan_none _ _
      (scanM_none_of_not_contains selfMatchAt (str "<Component") selfMatchAt_lit h hc)]
  rfl

lemma compileHtml_id (env : Env) (f : Nat) (h root : Str) (proj : Option Str)
    (hc : containsSub (str "<Component") h = false) :
    compileHtml env (f + 1) h root proj = some h := by
  rw [compileHtml_succ,
    processChildren_id env _ root _ h hc]
  exact processSelf_id env _ root _ h hc

/-- C3: amended claim.  Recompiling the output of `compile` yields the same
string whenever that output contains no `<Component` substring (in particular
whenever no component reference survived the first pass); the counterexample
shows that nested child-bearing references can leave a raw reference in the
output, in which case a second compile expands it further. -/
theorem c3_amended_fixed_point (env : Env) (f1 f2 : Nat) (h out root : Str)
    (proj : Option Str)
    (hcompile : compileHtml env f1 h root proj = some out)
    (hclean : containsSub (str "<Component") out = false) :
    compileHtml env (f2 + 1) out root proj = some out :=
  compileHtml_id env f2 out root proj hclean

/-- C3: witness for the amended fixed-point theorem at a concrete input. -/
theorem c3_witness :
    compileHtml env0 1 (str "plain") (str "r") none = some (str "plain") :=
  c3_amended_fixed_point env0 1 0 (str "plain") (str "plain") (str "r") none
    (by decide) (by decide)

/-- C9: calling compileHtml with the projectRoot argument absent (or null)
behaves identically to calling it with projectRoot equal to the parent
directory of the root: the default project root is dirname(root). -/
theorem c9_default_projectRoot (env : Env) (fuel : Nat) (html root : Str) :
    compileHtml env fuel html root none =
      compileHtml env fuel html root (some (dirname root)) := by
  cases fuel with
  | zero => rfl
  | succ f =>
    rw [compileHtml_succ, compileHtml_succ]
    have heff : effectiveProjectRoot root none =
        effectiveProjectRoot root (some (dirname root)) := by
      simp only [effectiveProjectRoot]
      by_cases e : (dirname root).isEmpty = true
      · rw [if_pos e]
      · rw [if_neg e]
    rw [heff]

/-! ## The cleanup pass on placeholder-shaped inputs -/

lemma cleanupMatchAt_eq (l r1 : Str) (h1 : stripL (str "\x7b\x7b") l = some r1) :
    cleanupMatchAt l =
      (if ((r1.dropWhile isJsWs).takeWhile isWordChar).isEmpty then none else
       match stripL (str "\x7d\x7d")
           (((r1.dropWhile isJsWs).dropWhile isWordChar).dropWhile isJsWs) with
       | none => none
       | some rest =>
         some { matched := str "\x7b\x7b" ++ r1.takeWhile isJsWs ++
                  (r1.dropWhile isJsWs).takeWhile isWordChar ++
                  ((r1.dropWhile isJsWs).dropWhile isWordChar).takeWhile isJsWs ++
                  str "\x7d\x7d",
                rest := rest, data := () }) := by
  simp only [cleanupMatchAt, h1]

lemma cleanupMatchAt_word_wrap (n0 : Char) (nt : Str)
    (hw : ∀ c ∈ (n0 :: nt : Str), isWordChar c = true) :
    cleanupMatchAt (str "\x7b\x7b " ++ ((n0 :: nt) ++ str " \x7d\x7d")) =
      some ⟨str "\x7b\x7b " ++ ((n0 :: nt) ++ str " \x7d\x7d"), [], ()⟩ := by
  have h0 : isWordChar n0 = true := hw n0 (by simp)
  have hws0 : isJsWs n0 = false := wordChar_not_ws n0 h0
  have hstrip : stripL (str "\x7b\x7b") (str "\x7b\x7b " ++ ((n0 :: nt) ++ str " \x7d\x7d"))
      = some (str " " ++ ((n0 :: nt) ++ str " \x7d\x7d")) := by
    rw [show str "\x7b\x7b " ++ ((n0 :: nt) ++ str " \x7d\x7d")
        = str "\x7b\x7b" ++ (str " " ++ ((n0 :: nt) ++ str " \x7d\x7d")) from rfl]
    exact stripL_append_self _ _
  rw [cleanupMatchAt_eq _ _ hstrip]
  have edrop : (str " " ++ ((n0 :: nt) ++ str " \x7d\x7d")).dropWhile isJsWs
      = (n0 :: nt) ++ str " \x7d\x7d" := by
    rw [dropWhile_append_all _ _ _ (by decide), List.cons_append,
      dropWhile_cons_false _ _ _ hws0, ← List.cons_append]
  have etakews : (str " " ++ ((n0 :: nt) ++ str " \x7d\x7d")).takeWhile isJsWs = str " " := by
    rw [takeWhile_append_all _ _ _ (by decide), List.cons_append,
      takeWhile_cons_false _ _ _ hws0, List.append_nil]
  have etakew : ((n0 :: nt) ++ str " \x7d\x7d").takeWhile isWordChar = n0 :: nt := by
    rw [takeWhile_append_all _ _ _ hw,
      show (str " \x7d\x7d").takeWhile isWordChar = [] from rfl, List.append_nil]
  have edropw : ((n0 :: nt) ++ str " \x7d\x7d").dropWhile isWordChar = str " \x7d\x7d" := by
    rw [dropWhile_append_all _ _ _ hw]
    rfl
  rw [edrop, etakew, etakews, edropw]
  rw [show (str " \x7d\x7d").dropWhile isJsWs = str "\x7d\x7d" from rfl]
  rw [show stripL (str "\x7d\x7d") (str "\x7d\x7d") = some [] from rfl]
  rw [show (str " \x7d\x7d").takeWhile isJsWs = str " " from rfl]
  have : ((n0 :: nt) : Str).isEmpty = false := rfl
  rw [this]
  simp only [Bool.false_eq_true, if_false]
  refine congrArg _ ?_
  refine congrArg (fun x => MRes.mk x [] ()) ?_
  simp only [List.append_assoc]
  rfl

lemma cleanupMatchAt_hyphen_none (c1 : Char) (t1 n2 : Str)
    (hw1 : ∀ c ∈ (c1 :: t1 : Str), isWordChar c = true) :
    cleanupMatchAt (str "\x7b\x7b " ++ ((c1 :: t1) ++ ('-' :: (n2 ++ str " \x7d\x7d"))))
      = none := by
  have h0 : isWordChar c1 = true := hw1 c1 (by simp)
  have hws0 : isJsWs c1 = false := wordChar_not_ws c1 h0
  have hstrip : stripL (str "\x7b\x7b")
      (str "\x7b\x7b " ++ ((c1 :: t1) ++ ('-' :: (n2 ++ str " \x7d\x7d"))))
      = some (str " " ++ ((c1 :: t1) ++ ('-' :: (n2 ++ str " \x7d\x7d")))) := by
    rw [show str "\x7b\x7b " ++ ((c1 :: t1) ++ ('-' :: (n2 ++ str " \x7d\x7d")))
        = str "\x7b\x7b" ++ (str " " ++ ((c1 :: t1) ++ ('-' :: (n2 ++ str " \x7d\x7d"))))
        from rfl]
    exact stripL_append_self _ _
  rw [cleanupMatchAt_eq _ _ hstrip]
  have edrop : (str " " ++ ((c1 :: t1) ++ ('-' :: (n2 ++ str " \x7d\x7d")))).dropWhile isJsWs
      = (c1 :: t1) ++ ('-' :: (n2 ++ str " \x7d\x7d")) := by
    rw [dropWhile_append_all _ _ _ (by decide), List.cons_append,
      dropWhile_cons_false _ _ _ hws0, ← List.cons_append]
  have etakew : ((c1 :: t1) ++ ('-' :: (n2 ++ str " \x7d\x7d"))).takeWhile isWordChar
      = c1 :: t1 := by
    rw [takeWhile_append_all _ _ _ hw1,
      takeWhile_cons_false _ _ _ (by decide), List.append_nil]
  have edropw : ((c1 :: t1) ++ ('-' :: (n2 ++ str " \x7d\x7d"))).dropWhile isWordChar
      = '-' :: (n2 ++ str " \x7d\x7d") := by
    rw [dropWhile_append_all _ _ _ hw1, dropWhile_cons_false _ _ _ (by decide)]
  rw [edrop, etakew, edropw]
  rw [dropWhile_cons_false _ _ _ (by decide)]
  rw [show stripL (str "\x7d\x7d") ('-' :: (n2 ++ str " \x7d\x7d")) = none by
    simp [stripL, str]]
  have : ((c1 :: t1) : Str).isEmpty = false := rfl
  rw [this]
  simp

lemma ne_of_mem_all (l : Str) (ch : Char)
    (h : l.all (fun c => !(c == ch)) = true) : ∀ c ∈ l, c ≠ ch := by
  intro c hc
  have := List.all_eq_true.mp h c hc
  simpa using this

lemma cleanup_scan_none_hyphen (c1 c2 : Char) (t1 t2 : Str)
    (hw1 : ∀ c ∈ (c1 :: t1 : Str), isWordChar c = true)
    (hw2 : ∀ c ∈ (c2 :: t2 : Str), isWordChar c = true) :
    scanM cleanupMatchAt
      (str "\x7b\x7b " ++ ((c1 :: t1) ++ ('-' :: ((c2 :: t2) ++ str " \x7d\x7d")))) = none := by
  have hA0 : cleanupMatchAt
      (Char.ofNat 123 :: Char.ofNat 123 :: Char.ofNat 32 ::
        ((c1 :: t1) ++ ('-' :: ((c2 :: t2) ++ str " \x7d\x7d"))))
      = none := cleanupMatchAt_hyphen_none c1 t1 (c2 :: t2) hw1
  have hA1 : cleanupMatchAt
      (Char.ofNat 123 :: Char.ofNat 32 ::
        ((c1 :: t1) ++ ('-' :: ((c2 :: t2) ++ str " \x7d\x7d"))))
      = none := rfl
  have hA2 : cleanupMatchAt
      (Char.ofNat 32 :: ((c1 :: t1) ++ ('-' :: ((c2 :: t2) ++ str " \x7d\x7d"))))
      = none := rfl
  have hA3 : cleanupMatchAt (c1 :: (t1 ++ ('-' :: ((c2 :: t2) ++ str " \x7d\x7d")))) = none := by
    have e : stripL (str "\x7b\x7b")
        (c1 :: (t1 ++ ('-' :: ((c2 :: t2) ++ str " \x7d\x7d")))) = none := by
      rw [show (str "\x7b\x7b") = Char.ofNat 123 :: str "\x7b" from rfl]
      simp only [stripL]
      rw [if_neg (wordChar_ne_lbrace c1 (hw1 c1 (by simp)))]
    simp only [cleanupMatchAt, e]
  have hsafe : scanM cleanupMatchAt
      (t1 ++ ('-' :: ((c2 :: t2) ++ str " \x7d\x7d"))) = none := by
    apply scanM_none_of_safe cleanupMatchAt (Char.ofNat 123) cleanupMatchAt_head
    intro c hc
    rcases List.mem_append.mp hc with h | h
    · exact wordChar_ne_lbrace c (hw1 c (by simp [h]))
    rcases List.mem_cons.mp h with h | h
    · subst h; decide
    rcases List.mem_append.mp h with h | h
    · exact wordChar_ne_lbrace c (hw2 c h)
    · exact ne_of_mem_all (str " \x7d\x7d") _ (by decide) c h
  rw [show str "\x7b\x7b " ++ ((c1 :: t1) ++ ('-' :: ((c2 :: t2) ++ str " \x7d\x7d")))
      = Char.ofNat 123 :: Char.ofNat 123 :: Char.ofNat 32 ::
          ((c1 :: t1) ++ ('-' :: ((c2 :: t2) ++ str " \x7d\x7d"))) from rfl]
  simp only [scanM]
  rw [hA0, hA1, hA2]
  simp only [List.cons_append] at hA3 hsafe
  simp [hA3, hsafe]

/-- C10: the final cleanup pass removes a `\x7b\x7b name \x7d\x7d` placeholder
exactly when the name consists solely of word characters: any non-empty
all-word name (arbitrary) is removed, while a hyphenated name such as
`data-test` survives cleanup unchanged even though hyphenated attribute names
are accepted as props by the self-closing attribute parser. -/
theorem c10_cleanup_word_placeholders :
    (∀ nm : Str, nm ≠ [] → (∀ c ∈ nm, isWordChar c = true) →
      cleanUnusedPlaceholders (str "\x7b\x7b " ++ (nm ++ str " \x7d\x7d")) = []) ∧
    (∀ n1 n2 : Str, n1 ≠ [] → n2 ≠ [] →
      (∀ c ∈ n1, isWordChar c = true) → (∀ c ∈ n2, isWordChar c = true) →
      cleanUnusedPlaceholders (str "\x7b\x7b " ++ (n1 ++ ('-' :: (n2 ++ str " \x7d\x7d")))) =
        str "\x7b\x7b " ++ (n1 ++ ('-' :: (n2 ++ str " \x7d\x7d")))) ∧
    parseSelfClosingComponentTag (str "<Component src=\"B\" data-test=\"x\" />") =
      some [(str "src", str "B"), (str "data-test", str "x")] := by
  refine ⟨?_, ?_, by decide⟩
  · intro nm hne hw
    obtain ⟨n0, nt, rfl⟩ : ∃ n0 nt, nm = n0 :: nt := by
      cases nm with
      | nil => exact absurd rfl hne
      | cons a b => exact ⟨a, b, rfl⟩
    have hm := cleanupMatchAt_word_wrap n0 nt hw
    rw [cleanUnusedPlaceholders,
      replaceAllM_whole cleanupMatchAt [] _ _ (scanM_at_head _ _ _ hm) rfl
        cleanupMatchAt_none_nil]
    rfl
  · intro n1 n2 h1 h2 hw1 hw2
    obtain ⟨c1, t1, rfl⟩ : ∃ c t, n1 = c :: t := by
      cases n1 with
      | nil => exact absurd rfl h1
      | cons a b => exact ⟨a, b, rfl⟩
    obtain ⟨c2, t2, rfl⟩ : ∃ c t, n2 = c :: t := by
      cases n2 with
      | nil => exact absurd rfl h2
      | cons a b => exact ⟨a, b, rfl⟩
    exact replaceAllM_id_of_scan_none _ _ _ (cleanup_scan_none_hyphen c1 c2 t1 t2 hw1 hw2)

/-- C10: witness instantiating the cleanup theorem at the names `title` and
`data-test`. -/
theorem c10_witness :
    cleanUnusedPlaceholders (str "\x7b\x7b title \x7d\x7d") = [] ∧
    cleanUnusedPlaceholders (str "\x7b\x7b data-test \x7d\x7d") =
      str "\x7b\x7b data-test \x7d\x7d" :=
  ⟨c10_cleanup_word_placeholders.1 (str "title") (by decide) (by decide),
   c10_cleanup_word_placeholders.2.1 (str "data") (str "test")
     (by decide) (by decide) (by decide) (by decide)⟩

/-- C8: a scanned self-closing match whose text does not fit the expected
Component attribute shape — the attribute parse returns null, or yields no
src attribute — is a resolution skip: the loop body of the self-closing pass
returns the result string untouched and the pass continues (it is a total
function; no error is raised). -/
theorem c8_malformed_tag_skipped (env : Env) (cmp : Str → Option Str)
    (root eff result : Str) (m : MRes Unit)
    (h : parseSelfClosingComponentTag m.matched = none ∨
      ∃ attrs, parseSelfClosingComponentTag m.matched = some attrs ∧
        lookupA attrs (str "src") = none) :
    processOneSelf env cmp root eff result m = some result := by
  rcases h with h | ⟨attrs, hp, hs⟩
  · simp only [processOneSelf, h]
  · simp only [processOneSelf, hp, hs]

/-- C8: witness — the scanned match `<Component foo="1" />` parses to an
attribute map without a src key and is left untouched. -/
theorem c8_witness :
    processOneSelf env0 (fun _ => none) (str "r") (str "p") (str "abc")
      ⟨str "<Component foo=\"1\" />", [], ()⟩ = some (str "abc") :=
  c8_malformed_tag_skipped env0 (fun _ => none) (str "r") (str "p") (str "abc")
    ⟨str "<Component foo=\"1\" />", [], ()⟩
    (Or.inr ⟨[(str "foo", str "1")], by decide, by decide⟩)

/-! ## parseVariants versus the claimed splitting contract -/

def splitFirstChar (c : Char) : Str → Option (Str × Str)
  | [] => none
  | x :: t =>
    if x = c then some ([], t)
    else (splitFirstChar c t).map (fun pr => (x :: pr.1, pr.2))

lemma splitOnChar_ne_nil (c : Char) : ∀ l : Str, splitOnChar c l ≠ [] := by
  intro l
  cases l with
  | nil => simp [splitOnChar]
  | cons x t =>
    simp only [splitOnChar]
    by_cases e : x = c
    · rw [if_pos e]; simp
    · rw [if_neg e]
      cases h : splitOnChar c t with
      | nil => simp
      | cons a b => simp

lemma joinEq_splitOnChar : ∀ l : Str, joinEq (splitOnChar '=' l) = l := by
  intro l
  induction l with
  | nil => rfl
  | cons x t ih =>
    simp only [splitOnChar]
    by_cases e : x = '='
    · rw [if_pos e]
      cases h : splitOnChar '=' t with
      | nil => exact absurd h (splitOnChar_ne_nil '=' t)
      | cons a b =>
        rw [h] at ih
        simp only [joinEq]
        rw [ih, e]
        rfl
    · rw [if_neg e]
      cases h : splitOnChar '=' t with
      | nil => exact absurd h (splitOnChar_ne_nil '=' t)
      | cons a b =>
        rw [h] at ih
        cases b with
        | nil => simp only [joinEq] at ih ⊢; rw [ih]
        | cons b0 bs =>
          simp only [joinEq] at ih ⊢
          rw [List.cons_append, ih]

lemma splitOn_first : ∀ (l n : Str) (parts : List Str),
    splitOnChar '=' l = n :: parts →
    (parts = [] ∧ splitFirstChar '=' l = none) ∨
    (parts ≠ [] ∧ splitFirstChar '=' l = some (n, joinEq parts)) := by
  intro l
  induction l with
  | nil =>
    intro n parts h
    simp only [splitOnChar] at h
    injection h with h1 h2
    left
    exact ⟨h2.symm, rfl⟩
  | cons x t ih =>
    intro n parts h
    simp only [splitOnChar] at h
    by_cases e : x = '='
    · rw [if_pos e] at h
      injection h with h1 h2
      right
      refine ⟨h2 ▸ splitOnChar_ne_nil '=' t, ?_⟩
      simp only [splitFirstChar, if_pos e]
      rw [← h1, ← h2, joinEq_splitOnChar]
    · rw [if_neg e] at h
      cases ht : splitOnChar '=' t with
      | nil => exact absurd ht (splitOnChar_ne_nil '=' t)
      | cons a b =>
        rw [ht] at h
        injection h with h1 h2
        rcases ih a b ht with ⟨hb, hf⟩ | ⟨hb, hf⟩
        · left
          refine ⟨h2.symm.trans hb, ?_⟩
          simp only [splitFirstChar, if_neg e, hf, Option.map_none']
        · right
          refine ⟨h2 ▸ hb, ?_⟩
          simp only [splitFirstChar, if_neg e, hf, Option.map_some']
          rw [← h1, ← h2]

/-- Modelled from the claim (C7) for comparison with `parseVariants`: take the
first directive match, split its body on commas, split each pair at the FIRST
`=` only, drop pairs that contain no `=` and entries whose name or class value
is the empty string (before trimming), and store trimmed name and classes. -/
def parseVariantsSpec (html : Str) : List (Str × Str) :=
  match scanM vMatchAt html with
  | none => []
  | some (_, m) =>
    (splitOnChar ',' m.data).foldl (fun acc pair =>
      match splitFirstChar '=' pair with
      | none => acc
      | some (nm, cls) =>
        if nm.isEmpty || cls.isEmpty then acc
        else insertAttr acc (trimJs nm) (trimJs cls)) []

/-- C7: amended claim.  The variant extractor uses only the first variants
directive (later ones ignored — both functions consume the same single
leftmost directive match), splits on commas and then on the first `=` within
each pair (a class value may itself contain `=`), and drops exactly those
entries whose name or class value is empty BEFORE trimming (a whitespace-only
name or class value is kept, with the empty string as its trimmed form, as
the counterexample shows); content with no directive yields an empty table. -/
theorem c7_amended_parseVariants_spec : ∀ html : Str,
    parseVariants html = parseVariantsSpec html := by
  intro html
  simp only [parseVariants, parseVariantsSpec]
  cases hscan : scanM vMatchAt html with
  | none => rfl
  | some pr =>
    obtain ⟨pre, m⟩ := pr
    have hstep : (fun (acc : List (Str × Str)) (pair : Str) =>
        match splitOnChar '=' pair with
        | [] => acc
        | nm :: parts =>
          if nm.isEmpty || (joinEq parts).isEmpty then acc
          else insertAttr acc (trimJs nm) (trimJs (joinEq parts))) =
        (fun (acc : List (Str × Str)) (pair : Str) =>
        match splitFirstChar '=' pair with
        | none => acc
        | some (nm, cls) =>
          if nm.isEmpty || cls.isEmpty then acc
          else insertAttr acc (trimJs nm) (trimJs cls)) := by
      funext acc pair
      cases e : splitOnChar '=' pair with
      | nil => exact absurd e (splitOnChar_ne_nil '=' pair)
      | cons n parts =>
        rcases splitOn_first pair n parts e with ⟨hp, hf⟩ | ⟨hp, hf⟩
        · subst hp
          rw [hf]
          simp [joinEq]
        · rw [hf]
    rw [hstep]

/-! ## loadComponent versus the claimed resolution contract -/

/-- Modelled from the claim (C4) for comparison with loadComponent: at one
base, probe the markup path `stem ++ ".html"` first and then the same path
stem with the dynamic-producer extension, `stem ++ ".js"`; a callable primary
export is invoked with the original props minus the `src` and `name` keys, a
non-callable export is returned stringified. -/
def probeSpec (env : Env) (attrs : List (Str × Str)) (stem : Str) : Option Str :=
  match env.htmlFile (stem ++ str ".html") with
  | some content => some content
  | none =>
    match env.jsModule (stem ++ str ".js") with
    | some (JsExport.fn f) =>
        some (f (attrs.filter (fun kv => !(kv.1 == str "src") && !(kv.1 == str "name"))))
    | some (JsExport.val s) => some s
    | none => none

/-- Modelled from the claim (C4): probe exactly three bases in the fixed
order rootDir/components, projectRoot/src/components, projectRoot/components;
at each base the markup file wins over the producer file; the first base
yielding either kind wins; otherwise NotFound. -/
def resolveComponentSpec (env : Env) (name root projectRoot : Str)
    (attrs : List (Str × Str)) : Option Str :=
  let n := normalizePath name
  match probeSpec env attrs (pathJoin root (str "components" ++ '/' :: n)) with
  | some c => some c
  | none =>
    match probeSpec env attrs (pathJoin projectRoot (str "src/components" ++ '/' :: n)) with
    | some c => some c
    | none => probeSpec env attrs (pathJoin projectRoot (str "components" ++ '/' :: n))

lemma replaceFirst_ext_js : ∀ (stem before : Str),
    (∀ c ∈ stem, c ≠ '.') →
    replaceFirstAux (str ".html") (str ".js") before (stem ++ str ".html")
      = before ++ (stem ++ str ".js") := by
  intro stem
  induction stem with
  | nil =>
    intro before _
    show before ++ substDollar (str ".html") before [] (str ".js") ++ [] =
      before ++ (([] : Str) ++ str ".js")
    rw [substDollar_no_dollar _ _ _ _ (by decide)]
    simp
  | cons c t ih =>
    intro before h
    have hc : c ≠ '.' := h c (by simp)
    rw [List.cons_append]
    have hpre : (str ".html").isPrefixOf (c :: (t ++ str ".html")) = false := by
      rw [show str ".html" = '.' :: str "html" from rfl]
      simp only [List.isPrefixOf, Bool.and_eq_false_iff]
      left
      simp only [beq_eq_false_iff_ne]
      exact fun e => hc e.symm
    simp only [replaceFirstAux]
    rw [if_neg (by rw [hpre]; exact Bool.false_ne_true)]
    rw [ih (before ++ [c]) (fun x hx => h x (by simp [hx]))]
    simp

lemma loadOne_eq_probeSpec (env : Env) (attrs : List (Str × Str)) (stem : Str)
    (h : ∀ c ∈ stem, c ≠ '.') :
    loadOne env attrs (stem ++ str ".html") = probeSpec env attrs stem := by
  simp only [loadOne, probeSpec]
  rw [show replaceFirstStr (str ".html") (str ".js") (stem ++ str ".html")
      = stem ++ str ".js" by
    rw [replaceFirstStr, replaceFirst_ext_js stem [] h, List.nil_append]]

lemma stem_dot_free (root sub n : Str) (hsub : ∀ c ∈ sub, c ≠ '.')
    (hroot : ∀ c ∈ root, c ≠ '.') (hn : ∀ c ∈ n, c ≠ '.') :
    ∀ c ∈ pathJoin root (sub ++ '/' :: n), c ≠ '.' := by
  intro c hc
  simp only [pathJoin, List.mem_append, List.mem_cons] at hc
  rcases hc with h | h | h | h | h
  · exact hroot c h
  · subst h; decide
  · exact hsub c h
  · subst h; decide
  · exact hn c h

lemma normalizePath_dot_free (name : Str) (h : ∀ c ∈ name, c ≠ '.') :
    ∀ c ∈ normalizePath name, c ≠ '.' := by
  intro c hc
  simp only [normalizePath, List.mem_map] at hc
  obtain ⟨a, ha, rfl⟩ := hc
  by_cases e : a = '\\'
  · rw [if_pos e]; decide
  · rw [if_neg e]; exact h a ha

/-- C4: amended claim.  Resolution probes exactly three candidate bases in
the fixed order rootDir/components, projectRoot/src/components,
projectRoot/components; at each base a markup (.html) file wins and its text
is returned; otherwise the dynamic-producer (.js) candidate at that base is
tried before moving on, where the .js path is obtained by replacing the
FIRST occurrence of ".html" anywhere in the candidate path — which coincides
with the path stem plus the .js extension whenever the roots and the
identifier are free of '.' (the counterexample shows identifiers containing
".html" are probed at a different path); a callable primary export is invoked
with the props minus src and name, a non-callable export is returned
stringified; if no base yields either file kind, resolution returns NotFound. -/
theorem c4_amended_loadComponent_refines_spec (env : Env)
    (name root projectRoot : Str) (attrs : List (Str × Str))
    (hroot : ∀ c ∈ root, c ≠ '.') (hproj : ∀ c ∈ projectRoot, c ≠ '.')
    (hname : ∀ c ∈ name, c ≠ '.') :
    loadComponent env name root projectRoot attrs =
      resolveComponentSpec env name root projectRoot attrs := by
  have hn := normalizePath_dot_free name hname
  have e1 : pathJoin root (str "components" ++ '/' :: normalizePath name ++ str ".html")
      = (pathJoin root (str "components" ++ '/' :: normalizePath name)) ++ str ".html" := by
    simp [pathJoin, List.append_assoc]
  have e2 : pathJoin projectRoot
        (str "src/components" ++ '/' :: normalizePath name ++ str ".html")
      = (pathJoin projectRoot (str "src/components" ++ '/' :: normalizePath name))
          ++ str ".html" := by
    simp [pathJoin, List.append_assoc]
  have e3 : pathJoin projectRoot (str "components" ++ '/' :: normalizePath name ++ str ".html")
      = (pathJoin projectRoot (str "components" ++ '/' :: normalizePath name)) ++ str ".html" := by
    simp [pathJoin, List.append_assoc]
  simp only [loadComponent, componentCandidatePaths, resolveComponentSpec]
  rw [e1, e2, e3,
    loadOne_eq_probeSpec env attrs _ (stem_dot_free root (str "components") _ (by decide) hroot hn),
    loadOne_eq_probeSpec env attrs _
      (stem_dot_free projectRoot (str "src/components") _ (by decide) hproj hn),
    loadOne_eq_probeSpec env attrs _
      (stem_dot_free projectRoot (str "components") _ (by decide) hproj hn)]

/-- C4: witness — at the dot-free identifier `Btn` with dot-free roots, the
loop of loadComponent agrees with the claimed three-base probing order. -/
theorem c4_witness :
    loadComponent envBtn (str "Btn") (str "r") (str "p") [] =
      resolveComponentSpec envBtn (str "Btn") (str "r") (str "p") [] :=
  c4_amended_loadComponent_refines_spec envBtn (str "Btn") (str "r") (str "p") []
    (by decide) (by decide) (by decide)

/-! ## The single self-closing reference document -/

def selfTagOf (I : Str) : Str := str "<Component src=\"" ++ (I ++ str "\" />")

lemma scanM_cons_eq {α : Type} (A : Str → Option (MRes α)) (c : Char) (t : Str) :
    scanM A (c :: t) =
      match A (c :: t) with
      | some m => some (([] : Str), m)
      | none => (scanM A t).map (fun pr => (c :: pr.1, pr.2)) := rfl

lemma scanM_cons_none {α : Type} (A : Str → Option (MRes α)) (c : Char) (t : Str)
    (hA : A (c :: t) = none) (hs : scanM A t = none) : scanM A (c :: t) = none := by
  rw [scanM_cons_eq, hA, hs]
  rfl

lemma bne_true_of_ne (c d : Char) (h : c ≠ d) : (c != d) = true := by
  simpa [bne_iff_ne] using h

lemma identChar_ne_gt_pred (I : Str) (hch : ∀ c ∈ I, isIdentChar c = true) :
    ∀ c ∈ I, (fun c => c != '>') c = true := by
  intro c hc
  exact bne_true_of_ne c '>' (identChar_ne_gt c (hch c hc))

lemma identChar_ne_quote_pred (I : Str) (hch : ∀ c ∈ I, isIdentChar c = true) :
    ∀ c ∈ I, (fun c => c != '"') c = true := by
  intro c hc
  exact bne_true_of_ne c '"' (identChar_ne_quote c (hch c hc))

lemma scanM_child_selfTag (I : Str) (hch : ∀ c ∈ I, isIdentChar c = true) :
    scanM childMatchAt (selfTagOf I) = none := by
  have h0 : childMatchAt ('<' :: (str "Component src=\"" ++ (I ++ str "\" />"))) = none := rfl
  have hsafe : scanM childMatchAt (str "Component src=\"" ++ (I ++ str "\" />")) = none := by
    apply scanM_none_of_safe childMatchAt '<' childMatchAt_head
    intro c hc
    rcases List.mem_append.mp hc with h | h
    · exact ne_of_mem_all (str "Component src=\"") _ (by decide) c h
    rcases List.mem_append.mp h with h | h
    · exact identChar_ne_lt c (hch c h)
    · exact ne_of_mem_all (str "\" />") _ (by decide) c h
  rw [show selfTagOf I = '<' :: (str "Component src=\"" ++ (I ++ str "\" />")) from rfl]
  exact scanM_cons_none _ _ _ h0 hsafe

lemma processChildren_selfTag (env : Env) (cmp : Str → Option Str) (root eff : Str)
    (I : Str) (hch : ∀ c ∈ I, isIdentChar c = true) :
    processComponentsWithChildren env cmp root eff (selfTagOf I) = some (selfTagOf I) := by
  rw [processComponentsWithChildren,
    matchAllM_nil_of_scan_none _ _ (scanM_child_selfTag I hch)]
  rfl

lemma selfMatchAt_eq (l r1 : Str) (h1 : stripL (str "<Component") l = some r1) :
    selfMatchAt l =
      (match r1.dropWhile (fun c => c != '>') with
       | '>' :: rest =>
         if 2 ≤ (r1.takeWhile (fun c => c != '>')).length then
           if (r1.takeWhile (fun c => c != '>')).getLastD '>' = '/' then
             some { matched := str "<Component" ++ r1.takeWhile (fun c => c != '>') ++ ['>'],
                    rest := rest, data := () }
           else none
         else none
       | _ => none) := by
  simp only [selfMatchAt, h1]

lemma selfMatchAt_selfTag (I : Str) (hch : ∀ c ∈ I, isIdentChar c = true) :
    selfMatchAt (selfTagOf I) = some ⟨selfTagOf I, [], ()⟩ := by
  have hstrip : stripL (str "<Component") (selfTagOf I)
      = some (str " src=\"" ++ (I ++ str "\" />")) := by
    rw [show selfTagOf I = str "<Component" ++ (str " src=\"" ++ (I ++ str "\" />")) from rfl]
    exact stripL_append_self _ _
  have htake : (str " src=\"" ++ (I ++ str "\" />")).takeWhile (fun c => c != '>')
      = str " src=\"" ++ (I ++ str "\" /") := by
    rw [takeWhile_append_all _ _ _ (by decide),
      takeWhile_append_all _ _ _ (identChar_ne_gt_pred I hch)]
    rfl
  have hdrop : (str " src=\"" ++ (I ++ str "\" />")).dropWhile (fun c => c != '>')
      = '>' :: [] := by
    rw [dropWhile_append_all _ _ _ (by decide),
      dropWhile_append_all _ _ _ (identChar_ne_gt_pred I hch)]
    rfl
  rw [selfMatchAt_eq _ _ hstrip, hdrop, htake]
  show (if 2 ≤ List.length (str " src=\"" ++ (I ++ str "\" /")) then
          if List.getLastD (str " src=\"" ++ (I ++ str "\" /")) '>' = '/' then
            some (MRes.mk (str "<Component" ++ (str " src=\"" ++ (I ++ str "\" /")) ++ ['>'])
              ([] : Str) ())
          else none
        else none) = some (MRes.mk (selfTagOf I) [] ())
  rw [if_pos (by
    have h6 : List.length (str " src=\"") = 6 := rfl
    have h3 : List.length (str "\" /") = 3 := rfl
    simp only [List.length_append, h6, h3]
    omega)]
  rw [if_pos (by
    rw [show str " src=\"" ++ (I ++ str "\" /")
        = (str " src=\"" ++ (I ++ str "\" ")) ++ ['/'] by
      simp only [List.append_assoc]
      rfl]
    exact List.getLastD_concat _ _ _)]
  refine congrArg _ ?_
  refine congrArg (fun x => MRes.mk x [] ()) ?_
  simp only [List.append_assoc]
  rfl

lemma selfParseMatchAt_eq (l r1 : Str) (h1 : stripL (str "<Component") l = some r1) :
    selfParseMatchAt l =
      (if (r1.takeWhile isJsWs).isEmpty then none else
       match (r1.dropWhile isJsWs).dropWhile (fun c => c != '>') with
       | '>' :: rest =>
         if 2 ≤ ((r1.dropWhile isJsWs).takeWhile (fun c => c != '>')).length then
           if ((r1.dropWhile isJsWs).takeWhile (fun c => c != '>')).getLastD '>' = '/' then
             some { matched := str "<Component" ++ r1.takeWhile isJsWs ++
                      (r1.dropWhile isJsWs).takeWhile (fun c => c != '>') ++ ['>'],
                    rest := rest,
                    data := ((r1.dropWhile isJsWs).takeWhile (fun c => c != '>')).dropLast }
           else none
         else none
       | _ => none) := by
  simp only [selfParseMatchAt, h1]

lemma selfParseMatchAt_selfTag (I : Str) (hch : ∀ c ∈ I, isIdentChar c = true) :
    selfParseMatchAt (selfTagOf I) =
      some ⟨selfTagOf I, [], str "src=\"" ++ (I ++ str "\" ")⟩ := by
  have hstrip : stripL (str "<Component") (selfTagOf I)
      = some (str " src=\"" ++ (I ++ str "\" />")) := by
    rw [show selfTagOf I = str "<Component" ++ (str " src=\"" ++ (I ++ str "\" />")) from rfl]
    exact stripL_append_self _ _
  have hdropws : (str " src=\"" ++ (I ++ str "\" />")).dropWhile isJsWs
      = str "src=\"" ++ (I ++ str "\" />") := by
    rw [show str " src=\"" ++ (I ++ str "\" />")
        = str " " ++ (str "src=\"" ++ (I ++ str "\" />")) from rfl]
    rw [dropWhile_append_all _ _ _ (by decide)]
    rfl
  have htakews : (str " src=\"" ++ (I ++ str "\" />")).takeWhile isJsWs = str " " := by
    rw [show str " src=\"" ++ (I ++ str "\" />")
        = str " " ++ (str "src=\"" ++ (I ++ str "\" />")) from rfl]
    rw [takeWhile_append_all _ _ _ (by decide)]
    rfl
  have htake : (str "src=\"" ++ (I ++ str "\" />")).takeWhile (fun c => c != '>')
      = str "src=\"" ++ (I ++ str "\" /") := by
    rw [takeWhile_append_all _ _ _ (by decide),
      takeWhile_append_all _ _ _ (identChar_ne_gt_pred I hch)]
    rfl
  have hdrop : (str "src=\"" ++ (I ++ str "\" />")).dropWhile (fun c => c != '>')
      = '>' :: [] := by
    rw [dropWhile_append_all _ _ _ (by decide),
      dropWhile_append_all _ _ _ (identChar_ne_gt_pred I hch)]
    rfl
  rw [selfParseMatchAt_eq _ _ hstrip, htakews]
  rw [if_neg (by decide : ¬ ((str " ").isEmpty = true))]
  rw [hdropws, hdrop, htake]
  show (if 2 ≤ List.length (str "src=\"" ++ (I ++ str "\" /")) then
          if List.getLastD (str "src=\"" ++ (I ++ str "\" /")) '>' = '/' then
            some (MRes.mk
              (str "<Component" ++ str " " ++ (str "src=\"" ++ (I ++ str "\" /")) ++ ['>'])
              ([] : Str) (List.dropLast (str "src=\"" ++ (I ++ str "\" /"))))
          else none
        else none) = some (MRes.mk (selfTagOf I) [] (str "src=\"" ++ (I ++ str "\" ")))
  rw [if_pos (by
    have h5 : List.length (str "src=\"") = 5 := rfl
    have h3 : List.length (str "\" /") = 3 := rfl
    simp only [List.length_append, h5, h3]
    omega)]
  rw [if_pos (by
    rw [show str "src=\"" ++ (I ++ str "\" /")
        = (str "src=\"" ++ (I ++ str "\" ")) ++ ['/'] by
      simp only [List.append_assoc]
      rfl]
    exact List.getLastD_concat _ _ _)]
  rw [show str "src=\"" ++ (I ++ str "\" /")
      = (str "src=\"" ++ (I ++ str "\" ")) ++ ['/'] by
    simp only [List.append_assoc]
    rfl]
  rw [List.dropLast_concat]
  refine congrArg _ ?_
  refine congrArg (fun x => MRes.mk x [] (str "src=\"" ++ (I ++ str "\" "))) ?_
  simp only [List.append_assoc]
  rfl

lemma attrScanAux_nil (kc : Char → Bool) : ∀ f, attrScanAux kc f [] = [] := by
  intro f
  cases f with
  | zero => rfl
  | succ f => rfl

lemma attrScan_srcCapture (I : Str) (hch : ∀ c ∈ I, isIdentChar c = true) :
    attrScanAux isKeyChar ((str "src=\"" ++ (I ++ str "\" ")).length + 1)
      (str "src=\"" ++ (I ++ str "\" ")) = [(str "src", I)] := by
  have hv : (I ++ str "\" ").takeWhile (fun x => x != '"') = I := by
    rw [takeWhile_append_all _ _ _ (identChar_ne_quote_pred I hch)]
    rw [show (str "\" ").takeWhile (fun x => x != '"') = [] from rfl, List.append_nil]
  have hdv : (I ++ str "\" ").dropWhile (fun x => x != '"') = str "\" " := by
    rw [dropWhile_append_all _ _ _ (identChar_ne_quote_pred I hch)]
    rfl
  rw [show (str "src=\"" ++ (I ++ str "\" ")).length = I.length + 7 by
    have l5 : (str "src=\"").length = 5 := rfl
    have l2 : (str "\" ").length = 2 := rfl
    simp only [List.length_append, l5, l2]
    omega]
  rw [show str "src=\"" ++ (I ++ str "\" ")
      = 's' :: 'r' :: 'c' :: '=' :: '"' :: (I ++ str "\" ") from rfl]
  show (match (I ++ str "\" ").dropWhile (fun x => x != '"') with
        | '"' :: rest =>
          (str "src", (I ++ str "\" ").takeWhile (fun x => x != '"')) ::
            attrScanAux isKeyChar (I.length + 7) rest
        | _ =>
          attrScanAux isKeyChar (I.length + 7) ('r' :: 'c' :: '=' :: '"' :: (I ++ str "\" ")))
      = [(str "src", I)]
  rw [hdv, hv]
  show (str "src", I) :: attrScanAux isKeyChar (I.length + 7) (str " ") = [(str "src", I)]
  rw [show I.length + 7 = (I.length + 6) + 1 from rfl]
  rw [show str " " = Char.ofNat 32 :: ([] : Str) from rfl]
  show (str "src", I) :: attrScanAux isKeyChar (I.length + 6) ([] : Str) = [(str "src", I)]
  rw [attrScanAux_nil]

lemma attrPairs_srcCapture (I : Str) (hch : ∀ c ∈ I, isIdentChar c = true) :
    attrPairs isKeyChar (str "src=\"" ++ (I ++ str "\" ")) = [(str "src", I)] := by
  rw [attrPairs, attrScan_srcCapture I hch]
  simp [insertAttr]

lemma parse_selfTag (I : Str) (hch : ∀ c ∈ I, isIdentChar c = true) :
    parseSelfClosingComponentTag (selfTagOf I) = some [(str "src", I)] := by
  simp only [parseSelfClosingComponentTag,
    scanM_at_head _ _ _ (selfParseMatchAt_selfTag I hch)]
  rw [attrPairs_srcCapture I hch]

lemma isEmpty_false_of_ne_nil (l : Str) (h : l ≠ []) : l.isEmpty = false := by
  cases l with
  | nil => exact absurd rfl h
  | cons a t => rfl

lemma selfTagOf_ne_nil (I : Str) : selfTagOf I ≠ [] := by
  rw [show selfTagOf I = '<' :: (str "Component src=\"" ++ (I ++ str "\" />")) from rfl]
  exact List.cons_ne_nil _ _

lemma containsSub_cons_eq (pat : Str) (c : Char) (t : Str) :
    containsSub pat (c :: t) = (pat.isPrefixOf (c :: t) || containsSub pat t) := rfl

lemma notFoundMarker_no_dollar (I : Str) (hch : ∀ c ∈ I, isIdentChar c = true) :
    ∀ c ∈ notFoundMarker I, c ≠ dollarChar := by
  intro c hc
  rw [notFoundMarker] at hc
  rcases List.mem_append.mp hc with h | h
  · rcases List.mem_append.mp h with h | h
    · exact ne_of_mem_all (str "<!-- Component \"") _ (by decide) c h
    · exact identChar_ne_dollar c (hch c h)
  · exact ne_of_mem_all (str "\" not found -->") _ (by decide) c h

lemma notFoundMarker_no_component (I : Str) (hch : ∀ c ∈ I, isIdentChar c = true) :
    containsSub (str "<Component") (notFoundMarker I) = false := by
  rw [show notFoundMarker I
      = '<' :: (str "!-- Component \"" ++ (I ++ str "\" not found -->")) from rfl]
  rw [containsSub_cons_eq]
  rw [show (str "<Component").isPrefixOf
      ('<' :: (str "!-- Component \"" ++ (I ++ str "\" not found -->"))) = false from rfl]
  rw [Bool.false_or]
  show containsSub ('<' :: str "Component")
    (str "!-- Component \"" ++ (I ++ str "\" not found -->")) = false
  apply containsSub_append_false '<' (str "Component") _ _
    (ne_of_mem_all (str "!-- Component \"") _ (by decide))
  apply containsSub_append_false '<' (str "Component") _ _
    (fun c hc => identChar_ne_lt c (hch c hc))
  decide

lemma processSelf_selfTag (env : Env) (cmp : Str → Option Str) (root eff : Str)
    (I : Str) (hch : ∀ c ∈ I, isIdentChar c = true) :
    processSelfClosingComponents env cmp root eff (selfTagOf I) =
      processOneSelf env cmp root eff (selfTagOf I) ⟨selfTagOf I, [], ()⟩ := by
  rw [processSelfClosingComponents,
    matchAllM_single selfMatchAt _ [] _ (scanM_at_head _ _ _ (selfMatchAt_selfTag I hch))
      rfl selfMatchAt_none_nil]
  cases h : processOneSelf env cmp root eff (selfTagOf I) ⟨selfTagOf I, [], ()⟩ with
  | none => simp [List.foldlM, h]
  | some r => simp [List.foldlM, h]

lemma processOneSelf_selfTag_notfound (env : Env) (cmp : Str → Option Str)
    (root eff : Str) (I : Str) (hI : I ≠ [])
    (hch : ∀ c ∈ I, isIdentChar c = true)
    (hload : loadComponent env I root eff [(str "src", I)] = none) :
    processOneSelf env cmp root eff (selfTagOf I) ⟨selfTagOf I, [], ()⟩
      = some (notFoundMarker I) := by
  simp only [processOneSelf, parse_selfTag I hch, lookupA, ite_true,
    isEmpty_false_of_ne_nil I hI, Bool.false_eq_true, if_false, hload]
  rw [replaceFirstStr_self _ _ (selfTagOf_ne_nil I),
    substDollar_no_dollar _ _ _ _ (notFoundMarker_no_dollar I hch)]

lemma processOneSelf_selfTag_found (env : Env) (cmp : Str → Option Str)
    (root eff : Str) (I c out : Str) (hI : I ≠ [])
    (hch : ∀ ch ∈ I, isIdentChar ch = true)
    (hload : loadComponent env I root eff [(str "src", I)] = some c)
    (hbrace : containsSub (str "\x7b\x7b") c = false)
    (hcmp : cmp c = some out)
    (hodollar : ∀ ch ∈ out, ch ≠ dollarChar) :
    processOneSelf env cmp root eff (selfTagOf I) ⟨selfTagOf I, [], ()⟩ = some out := by
  have happly : applySelfProps (parseVariants c) [(str "src", I)] c = c := by
    simp [applySelfProps, List.foldl]
    intro h
    exact absurd h (by decide)
  simp only [processOneSelf, parse_selfTag I hch, lookupA, ite_true,
    isEmpty_false_of_ne_nil I hI, Bool.false_eq_true, if_false, hload]
  rw [happly,
    replaceAllM_id_of_scan_none _ _ _
      (scanM_none_of_not_contains _ _ (phMatchAt_lit _) c hbrace),
    hcmp]
  show some (replaceFirstStr (selfTagOf I) out (selfTagOf I)) = some out
  rw [replaceFirstStr_self _ _ (selfTagOf_ne_nil I),
    substDollar_no_dollar _ _ _ _ hodollar]

/-- C2: amended claim.  For every non-empty identifier I over word characters
and path separators (such identifiers contain no `$`, `"`, `<` or `>`; the
counterexample shows an identifier containing the replacement pattern `$&`
violates the original claim) that resolves to no file in any search location,
compiling the document `<Component src="I" />` yields exactly the literal
marker `<!-- Component "I" not found -->`, which contains no `<Component`
substring; the failure is non-fatal (compile still returns a string). -/
theorem c2_amended_missing_component_marker (env : Env) (fuel : Nat) (root : Str)
    (proj : Option Str) (I : Str) (hI : I ≠ [])
    (hch : ∀ c ∈ I, isIdentChar c = true)
    (hload : loadComponent env I root (effectiveProjectRoot root proj)
      [(str "src", I)] = none) :
    compileHtml env (fuel + 1) (selfTagOf I) root proj = some (notFoundMarker I) ∧
    containsSub (str "<Component") (notFoundMarker I) = false := by
  refine ⟨?_, notFoundMarker_no_component I hch⟩
  rw [compileHtml_succ, processChildren_selfTag env _ root _ I hch]
  show processSelfClosingComponents env
    (fun c => compileHtml env fuel c root (some (effectiveProjectRoot root proj)))
    root (effectiveProjectRoot root proj) (selfTagOf I) = some (notFoundMarker I)
  rw [processSelf_selfTag env _ root _ I hch]
  exact processOneSelf_selfTag_notfound env _ root _ I hI hch hload

/-- C2: witness for the amended theorem at the identifier `Nope` over an
empty file system. -/
theorem c2_witness :
    compileHtml env0 1 (selfTagOf (str "Nope")) (str "r") (some (str "p"))
      = some (notFoundMarker (str "Nope")) ∧
    containsSub (str "<Component") (notFoundMarker (str "Nope")) = false :=
  c2_amended_missing_component_marker env0 0 (str "r") (some (str "p")) (str "Nope")
    (by decide) (by decide) (by decide)

/-! ## A self-closing reference embedded in inert surrounding text -/

lemma isPrefixOf_cons_ne (hd : Char) (pt : Str) (c : Char) (X : Str) (h : c ≠ hd) :
    (hd :: pt).isPrefixOf (c :: X) = false := by
  show (hd == c && pt.isPrefixOf X) = false
  rw [show (hd == c) = false from beq_eq_false_iff_ne.mpr (fun e => h e.symm)]
  rfl

lemma isPrefixOf_append_false_head : ∀ (pat u B : Str),
    pat.isPrefixOf u = false → (∀ b ∈ B.take 1, b ∉ pat) →
      pat.isPrefixOf (u ++ B) = false := by
  intro pat
  induction pat with
  | nil =>
    intro u B hu _
    have htrue : ([] : Str).isPrefixOf u = true := by cases u <;> rfl
    rw [htrue] at hu
    exact Bool.noConfusion hu
  | cons p ps ih =>
    intro u B hu hB
    cases u with
    | nil =>
      cases B with
      | nil => rfl
      | cons b bs =>
        have hb : b ∉ (p :: ps) := hB b (by simp)
        have hbp : b ≠ p := fun e => hb (e ▸ List.mem_cons_self p ps)
        show (p :: ps).isPrefixOf (b :: bs) = false
        exact isPrefixOf_cons_ne p ps b bs hbp
    | cons x xs =>
      show (p == x && ps.isPrefixOf (xs ++ B)) = false
      by_cases hpx : p = x
      · have hu2 : ps.isPrefixOf xs = false := by
          cases e : ps.isPrefixOf xs with
          | false => rfl
          | true =>
            have : (p :: ps).isPrefixOf (x :: xs) = true := by
              show (p == x && ps.isPrefixOf xs) = true
              rw [e, show (p == x) = true from beq_iff_eq.mpr hpx]
              rfl
            rw [this] at hu
            exact Bool.noConfusion hu
        have hB2 : ∀ b ∈ B.take 1, b ∉ ps :=
          fun b hb hbmem => hB b hb (List.mem_cons_of_mem p hbmem)
        rw [ih xs B hu2 hB2]
        exact Bool.and_false _
      · rw [show (p == x) = false from beq_eq_false_iff_ne.mpr hpx]
        rfl

/- No occurrence of `pat` in `A ++ B` when neither part contains one and the
head of `B` is foreign to `pat` (which rules out occurrences straddling the
boundary). -/
lemma containsSub_append_no_straddle (pat : Str) :
    ∀ (A B : Str), containsSub pat A = false → containsSub pat B = false →
      (∀ b ∈ B.take 1, b ∉ pat) → containsSub pat (A ++ B) = false := by
  intro A
  induction A with
  | nil => intro B _ hB _; simpa using hB
  | cons a t ih =>
    intro B hA hB hhead
    rw [containsSub_cons_eq] at hA
    obtain ⟨h1, h2⟩ := Bool.or_eq_false_iff.mp hA
    show containsSub pat (a :: (t ++ B)) = false
    rw [containsSub_cons_eq]
    have hpre : pat.isPrefixOf (a :: (t ++ B)) = false :=
      isPrefixOf_append_false_head pat (a :: t) B h1 hhead
    rw [hpre, ih B h2 hB hhead]
    rfl

lemma containsSub_of_all_ne (h0 : Char) (lt : Str) :
    ∀ (S : Str), (∀ ch ∈ S, ch ≠ h0) → containsSub (h0 :: lt) S = false := by
  intro S
  induction S with
  | nil => intro _; exact containsSub_nil_false h0 lt
  | cons c t ih =>
    intro hS
    rw [containsSub_cons_eq,
      isPrefixOf_cons_ne h0 lt c t (hS c (List.mem_cons_self c t)),
      ih (fun ch hc => hS ch (List.mem_cons_of_mem c hc))]
    rfl

lemma scanM_none_append {α : Type} (A : Str → Option (MRes α)) (hd : Char)
    (hA : ∀ u m, A u = some m → ∃ t, u = hd :: t) :
    ∀ (P L : Str), (∀ c ∈ P, c ≠ hd) → scanM A L = none → scanM A (P ++ L) = none := by
  intro P
  induction P with
  | nil => intro L _ hL; simpa using hL
  | cons c t ih =>
    intro L hP hL
    have hAc : A (c :: (t ++ L)) = none := by
      cases e : A (c :: (t ++ L)) with
      | none => rfl
      | some m =>
        obtain ⟨u, hu⟩ := hA _ _ e
        have hc : c = hd := by injection hu
        exact absurd hc (hP c (List.mem_cons_self c t))
    show scanM A (c :: (t ++ L)) = none
    exact scanM_cons_none A c (t ++ L) hAc
      (ih L (fun x hx => hP x (List.mem_cons_of_mem c hx)) hL)

lemma scanM_found_after {α : Type} (A : Str → Option (MRes α)) (hd : Char)
    (hA : ∀ u m, A u = some m → ∃ t, u = hd :: t) :
    ∀ (P L : Str) (m : MRes α), (∀ c ∈ P, c ≠ hd) → A L = some m →
      scanM A (P ++ L) = some (P, m) := by
  intro P
  induction P with
  | nil => intro L m _ hm; simpa using scanM_at_head A L m hm
  | cons c t ih =>
    intro L m hP hm
    have hAc : A (c :: (t ++ L)) = none := by
      cases e : A (c :: (t ++ L)) with
      | none => rfl
      | some m2 =>
        obtain ⟨u, hu⟩ := hA _ _ e
        have hc : c = hd := by injection hu
        exact absurd hc (hP c (List.mem_cons_self c t))
    show scanM A (c :: (t ++ L)) = some (c :: t, m)
    rw [scanM_cons_eq, hAc]
    show (scanM A (t ++ L)).map (fun pr => (c :: pr.1, pr.2)) = some (c :: t, m)
    rw [ih L m (fun x hx => hP x (List.mem_cons_of_mem c hx)) hm]
    rfl

lemma matchAllM_single_rest {α : Type} (A : Str → Option (MRes α)) (l pre : Str)
    (m : MRes α) (hl : l ≠ []) (hscan : scanM A l = some (pre, m))
    (hrest : scanM A m.rest = none) : matchAllM A l = [m] := by
  cases l with
  | nil => exact absurd rfl hl
  | cons c t =>
    rw [matchAllM, matchAllAux_succ, hscan]
    show m :: matchAllAux A (c :: t).length m.rest = [m]
    rw [show (c :: t).length = t.length + 1 from rfl, matchAllAux_succ, hrest]

lemma scanM_child_selfTag_rest (I S : Str) (hch : ∀ c ∈ I, isIdentChar c = true)
    (hS : ∀ c ∈ S, c ≠ '<') :
    scanM childMatchAt (selfTagOf I ++ S) = none := by
  have h0 : childMatchAt
      ('<' :: (str "Component src=\"" ++ (I ++ (str "\" />" ++ S)))) = none := rfl
  have hsafe : scanM childMatchAt
      (str "Component src=\"" ++ (I ++ (str "\" />" ++ S))) = none := by
    apply scanM_none_of_safe childMatchAt '<' childMatchAt_head
    intro c hc
    rcases List.mem_append.mp hc with h | h
    · exact ne_of_mem_all (str "Component src=\"") _ (by decide) c h
    rcases List.mem_append.mp h with h | h
    · exact identChar_ne_lt c (hch c h)
    rcases List.mem_append.mp h with h | h
    · exact ne_of_mem_all (str "\" />") _ (by decide) c h
    · exact hS c h
  have hre : selfTagOf I ++ S
      = '<' :: (str "Component src=\"" ++ (I ++ (str "\" />" ++ S))) := by
    simp only [selfTagOf, List.append_assoc]
    rfl
  rw [hre]
  exact scanM_cons_none _ _ _ h0 hsafe

lemma selfMatchAt_selfTag_rest (I S : Str) (hch : ∀ c ∈ I, isIdentChar c = true) :
    selfMatchAt (selfTagOf I ++ S) = some ⟨selfTagOf I, S, ()⟩ := by
  have hstrip : stripL (str "<Component") (selfTagOf I ++ S)
      = some (str " src=\"" ++ (I ++ (str "\" /" ++ ('>' :: S)))) := by
    rw [show selfTagOf I ++ S
        = str "<Component" ++ (str " src=\"" ++ (I ++ (str "\" /" ++ ('>' :: S)))) from by
      simp only [selfTagOf, List.append_assoc]
      rfl]
    exact stripL_append_self _ _
  have htake : (str " src=\"" ++ (I ++ (str "\" /" ++ ('>' :: S)))).takeWhile
      (fun c => c != '>') = str " src=\"" ++ (I ++ str "\" /") := by
    rw [takeWhile_append_all _ _ _ (by decide),
      takeWhile_append_all _ _ _ (identChar_ne_gt_pred I hch),
      takeWhile_append_all _ _ _ (by decide),
      show (('>' :: S).takeWhile (fun c => c != '>')) = ([] : Str) from rfl,
      List.append_nil]
  have hdrop : (str " src=\"" ++ (I ++ (str "\" /" ++ ('>' :: S)))).dropWhile
      (fun c => c != '>') = '>' :: S := by
    rw [dropWhile_append_all _ _ _ (by decide),
      dropWhile_append_all _ _ _ (identChar_ne_gt_pred I hch),
      dropWhile_append_all _ _ _ (by decide)]
    rfl
  rw [selfMatchAt_eq _ _ hstrip, hdrop, htake]
  show (if 2 ≤ List.length (str " src=\"" ++ (I ++ str "\" /")) then
          if List.getLastD (str " src=\"" ++ (I ++ str "\" /")) '>' = '/' then
            some (MRes.mk (str "<Component" ++ (str " src=\"" ++ (I ++ str "\" /")) ++ ['>'])
              S ())
          else none
        else none) = some (MRes.mk (selfTagOf I) S ())
  rw [if_pos (by
    have h6 : List.length (str " src=\"") = 6 := rfl
    have h3 : List.length (str "\" /") = 3 := rfl
    simp only [List.length_append, h6, h3]
    omega)]
  rw [if_pos (by
    rw [show str " src=\"" ++ (I ++ str "\" /")
        = (str " src=\"" ++ (I ++ str "\" ")) ++ ['/'] by
      simp only [List.append_assoc]
      rfl]
    exact List.getLastD_concat _ _ _)]
  refine congrArg _ ?_
  refine congrArg (fun x => MRes.mk x S ()) ?_
  simp only [List.append_assoc]
  rfl

lemma replaceFirstAux_skip (pat repl : Str) (hd : Char) (pt : Str)
    (hpat : pat = hd :: pt) :
    ∀ (P before L : Str), (∀ c ∈ P, c ≠ hd) →
      replaceFirstAux pat repl before (P ++ L) =
        replaceFirstAux pat repl (before ++ P) L := by
  intro P
  induction P with
  | nil => intro before L _; rw [List.nil_append, List.append_nil]
  | cons c t ih =>
    intro before L hP
    have hneg : ¬ (pat.isPrefixOf (c :: (t ++ L)) = true) := by
      rw [hpat, isPrefixOf_cons_ne hd pt c (t ++ L) (hP c (List.mem_cons_self c t))]
      exact Bool.false_ne_true
    show replaceFirstAux pat repl before (c :: (t ++ L)) =
      replaceFirstAux pat repl (before ++ (c :: t)) L
    simp only [replaceFirstAux]
    rw [if_neg hneg, ih (before ++ [c]) L (fun x hx => hP x (List.mem_cons_of_mem c hx)),
      List.append_assoc]
    rfl

/- First-occurrence string replace of a pattern embedded after a prefix free
of the pattern's head character. -/
lemma replaceFirstStr_at (pat repl P S : Str) (hd : Char) (pt : Str)
    (hpat : pat = hd :: pt) (hP : ∀ c ∈ P, c ≠ hd) :
    replaceFirstStr pat repl (P ++ (pat ++ S)) =
      P ++ (substDollar pat P S repl ++ S) := by
  rw [replaceFirstStr, replaceFirstAux_skip pat repl hd pt hpat P [] (pat ++ S) hP,
    List.nil_append]
  have hdrop : (hd :: (pt ++ S)).drop (hd :: pt).length = S := by
    rw [show (hd :: pt).length = pt.length + 1 from rfl]
    show (pt ++ S).drop pt.length = S
    exact List.drop_left pt S
  rw [hpat]
  show replaceFirstAux (hd :: pt) repl P (hd :: (pt ++ S)) =
    P ++ (substDollar (hd :: pt) P S repl ++ S)
  simp only [replaceFirstAux]
  rw [if_pos (show (hd :: pt).isPrefixOf (hd :: (pt ++ S)) = true from
    isPrefixOf_append_self (hd :: pt) S), hdrop]
  simp only [List.append_assoc]

lemma processChildren_embedded (env : Env) (cmp : Str → Option Str) (root eff : Str)
    (P S I : Str) (hch : ∀ c ∈ I, isIdentChar c = true)
    (hP : ∀ c ∈ P, c ≠ '<') (hS : ∀ c ∈ S, c ≠ '<') :
    processComponentsWithChildren env cmp root eff (P ++ (selfTagOf I ++ S))
      = some (P ++ (selfTagOf I ++ S)) := by
  rw [processComponentsWithChildren,
    matchAllM_nil_of_scan_none _ _
      (scanM_none_append childMatchAt '<' childMatchAt_head P (selfTagOf I ++ S) hP
        (scanM_child_selfTag_rest I S hch hS))]
  rfl

lemma processSelf_embedded (env : Env) (cmp : Str → Option Str) (root eff : Str)
    (P S I : Str) (hch : ∀ c ∈ I, isIdentChar c = true)
    (hP : ∀ c ∈ P, c ≠ '<') (hS : ∀ c ∈ S, c ≠ '<') :
    processSelfClosingComponents env cmp root eff (P ++ (selfTagOf I ++ S)) =
      processOneSelf env cmp root eff (P ++ (selfTagOf I ++ S)) ⟨selfTagOf I, S, ()⟩ := by
  have hne : P ++ (selfTagOf I ++ S) ≠ [] := by
    cases P with
    | nil =>
      rw [List.nil_append,
        show selfTagOf I = '<' :: (str "Component src=\"" ++ (I ++ str "\" />")) from rfl]
      exact List.cons_ne_nil _ _
    | cons a t => exact List.cons_ne_nil _ _
  rw [processSelfClosingComponents,
    matchAllM_single_rest selfMatchAt _ P ⟨selfTagOf I, S, ()⟩ hne
      (scanM_found_after selfMatchAt '<' selfMatchAt_head P (selfTagOf I ++ S)
        ⟨selfTagOf I, S, ()⟩ hP (selfMatchAt_selfTag_rest I S hch))
      (scanM_none_of_safe selfMatchAt '<' selfMatchAt_head S hS)]
  cases h : processOneSelf env cmp root eff (P ++ (selfTagOf I ++ S)) ⟨selfTagOf I, S, ()⟩ with
  | none => simp [List.foldlM, h]
  | some r => simp [List.foldlM, h]

lemma processOneSelf_embedded_found (env : Env) (cmp : Str → Option Str)
    (root eff : Str) (P S I c out : Str) (hI : I ≠ [])
    (hch : ∀ ch ∈ I, isIdentChar ch = true) (hP : ∀ ch ∈ P, ch ≠ '<')
    (hload : loadComponent env I root eff [(str "src", I)] = some c)
    (hbrace : containsSub (str "\x7b\x7b") c = false)
    (hcmp : cmp c = some out)
    (hodollar : ∀ ch ∈ out, ch ≠ dollarChar) :
    processOneSelf env cmp root eff (P ++ (selfTagOf I ++ S)) ⟨selfTagOf I, S, ()⟩
      = some (P ++ (out ++ S)) := by
  have happly : applySelfProps (parseVariants c) [(str "src", I)] c = c := by
    simp [applySelfProps, List.foldl]
    intro h
    exact absurd h (by decide)
  simp only [processOneSelf, parse_selfTag I hch, lookupA, ite_true,
    isEmpty_false_of_ne_nil I hI, Bool.false_eq_true, if_false, hload]
  rw [happly,
    replaceAllM_id_of_scan_none _ _ _
      (scanM_none_of_not_contains _ _ (phMatchAt_lit _) c hbrace),
    hcmp]
  show some (replaceFirstStr (selfTagOf I) out (P ++ (selfTagOf I ++ S)))
      = some (P ++ (out ++ S))
  rw [replaceFirstStr_at (selfTagOf I) out P S '<'
      (str "Component src=\"" ++ (I ++ str "\" />")) rfl hP,
    substDollar_no_dollar _ _ _ _ hodollar]

lemma processOneSelf_embedded_notfound (env : Env) (cmp : Str → Option Str)
    (root eff : Str) (P S I : Str) (hI : I ≠ [])
    (hch : ∀ ch ∈ I, isIdentChar ch = true) (hP : ∀ ch ∈ P, ch ≠ '<')
    (hload : loadComponent env I root eff [(str "src", I)] = none) :
    processOneSelf env cmp root eff (P ++ (selfTagOf I ++ S)) ⟨selfTagOf I, S, ()⟩
      = some (P ++ (notFoundMarker I ++ S)) := by
  simp only [processOneSelf, parse_selfTag I hch, lookupA, ite_true,
    isEmpty_false_of_ne_nil I hI, Bool.false_eq_true, if_false, hload]
  show some (replaceFirstStr (selfTagOf I) (notFoundMarker I) (P ++ (selfTagOf I ++ S)))
      = some (P ++ (notFoundMarker I ++ S))
  rw [replaceFirstStr_at (selfTagOf I) (notFoundMarker I) P S '<'
      (str "Component src=\"" ++ (I ++ str "\" />")) rfl hP,
    substDollar_no_dollar _ _ _ _ (notFoundMarker_no_dollar I hch)]

/-- C1: amended claim.  The original invariant is false as stated (the
counterexample shows a reference nested in a child-bearing reference's
children survives raw; a `src`-less tag or literal `<Component` text in
resolved content also survives, by design).  The amended, proved form: for a
document made of a well-formed self-closing reference over a non-empty
word/slash identifier embedded in inert surrounding text — a prefix and a
suffix free of `<`, the suffix not beginning with a character of
`<Component` (which rules out boundary straddling) — the reference alone is
rewritten and the surroundings pass through verbatim: when resolution
succeeds and the resolved content is free of placeholder braces, of `$` and
of `<Component`, the reference is replaced by exactly that recursively
compiled content and the output contains no raw `<Component`; when
resolution fails, the reference is replaced by exactly the not-found marker
and the output again contains no raw `<Component`. -/
theorem c1_amended_embedded_replacement (env : Env) (fuel : Nat) (root : Str)
    (proj : Option Str) (P S I : Str) (hI : I ≠ [])
    (hch : ∀ ch ∈ I, isIdentChar ch = true)
    (hP : ∀ ch ∈ P, ch ≠ '<') (hS : ∀ ch ∈ S, ch ≠ '<')
    (hhead : ∀ b ∈ S.take 1, b ∉ str "<Component") :
    (∀ c : Str,
      loadComponent env I root (effectiveProjectRoot root proj) [(str "src", I)] = some c →
      containsSub (str "\x7b\x7b") c = false →
      containsSub (str "<Component") c = false →
      (∀ ch ∈ c, ch ≠ dollarChar) →
      compileHtml env (fuel + 2) (P ++ (selfTagOf I ++ S)) root proj
          = some (P ++ (c ++ S)) ∧
        containsSub (str "<Component") (P ++ (c ++ S)) = false) ∧
    (loadComponent env I root (effectiveProjectRoot root proj) [(str "src", I)] = none →
      compileHtml env (fuel + 1) (P ++ (selfTagOf I ++ S)) root proj
          = some (P ++ (notFoundMarker I ++ S)) ∧
        containsSub (str "<Component") (P ++ (notFoundMarker I ++ S)) = false) := by
  constructor
  · intro c hload hbrace htag hdollar
    constructor
    · rw [show fuel + 2 = (fuel + 1) + 1 from rfl, compileHtml_succ,
        processChildren_embedded env _ root _ P S I hch hP hS]
      show processSelfClosingComponents env
        (fun x => compileHtml env (fuel + 1) x root (some (effectiveProjectRoot root proj)))
        root (effectiveProjectRoot root proj) (P ++ (selfTagOf I ++ S))
          = some (P ++ (c ++ S))
      rw [processSelf_embedded env _ root _ P S I hch hP hS]
      exact processOneSelf_embedded_found env _ root _ P S I c c hI hch hP hload hbrace
        (compileHtml_id env fuel c root (some (effectiveProjectRoot root proj)) htag)
        hdollar
    · have hSc : containsSub (str "<Component") S = false :=
        containsSub_of_all_ne '<' (str "Component") S hS
      have hcS : containsSub (str "<Component") (c ++ S) = false :=
        containsSub_append_no_straddle (str "<Component") c S htag hSc hhead
      exact containsSub_append_false '<' (str "Component") P (c ++ S) hP hcS
  · intro hload
    constructor
    · rw [compileHtml_succ, processChildren_embedded env _ root _ P S I hch hP hS]
      show processSelfClosingComponents env
        (fun x => compileHtml env fuel x root (some (effectiveProjectRoot root proj)))
        root (effectiveProjectRoot root proj) (P ++ (selfTagOf I ++ S))
          = some (P ++ (notFoundMarker I ++ S))
      rw [processSelf_embedded env _ root _ P S I hch hP hS]
      exact processOneSelf_embedded_notfound env _ root _ P S I hI hch hP hload
    · have hSc : containsSub (str "<Component") S = false :=
        containsSub_of_all_ne '<' (str "Component") S hS
      have hmS : containsSub (str "<Component") (notFoundMarker I ++ S) = false :=
        containsSub_append_no_straddle (str "<Component") (notFoundMarker I) S
          (notFoundMarker_no_component I hch) hSc hhead
      exact containsSub_append_false '<' (str "Component") P (notFoundMarker I ++ S) hP hmS

/- The identifier `Box` resolves to `<p>ok</p>`. -/
def envBox : Env where
  htmlFile := fun p =>
    if p = str "r/components/Box.html" then some (str "<p>ok</p>") else none
  jsModule := fun _ => none

/-- C1: witness for the amended theorem — the reference `Box` embedded between
inert text compiles to the prefix, the resolved content and the suffix. -/
theorem c1_witness :
    compileHtml envBox 2 (str "A: " ++ (selfTagOf (str "Box") ++ str " :B"))
        (str "r") (some (str "p"))
      = some (str "A: " ++ (str "<p>ok</p>" ++ str " :B")) ∧
    containsSub (str "<Component")
      (str "A: " ++ (str "<p>ok</p>" ++ str " :B")) = false :=
  (c1_amended_embedded_replacement envBox 0 (str "r") (some (str "p"))
      (str "A: ") (str " :B") (str "Box") (by decide) (by decide) (by decide)
      (by decide) (by decide)).1
    (str "<p>ok</p>") (by decide) (by decide) (by decide) (by decide)

/-- C5: amended claim.  Child-bearing binding first replaces every children
placeholder occurrence in the resolved content with the trimmed children
markup passed through the JS replacement-string substitution — verbatim
exactly when the children contain no `$` (the counterexample shows `$$`
children are spliced as `$`) — and only then, for every prop key, replaces
that key's placeholders with the prop value; children-splice strictly
precedes prop-splice (a prop value containing a children placeholder is not
re-spliced, second conjunct), and the spec's example compiles as stated
(first conjunct). -/
theorem c5_amended_children_before_props :
    compileHtml envCard 5
      (str "<Component name=\"Card\" title=\"T\"><p>Z</p></Component>")
      (str "r") (some (str "p")) = some (str "<div>T<p>Z</p></div>") ∧
    compileHtml envTitle 5
      (str "<Component name=\"Card2\" title=\"\x7b\x7b children \x7d\x7d\"><p>Z</p></Component>")
      (str "r") (some (str "p"))
      = some (str "<div>\x7b\x7b children \x7d\x7d</div>") ∧
    (∀ ch m b a : Str, (∀ c ∈ ch, c ≠ dollarChar) → substDollar m b a ch = ch) :=
  ⟨by decide, by decide, fun ch m b a h => substDollar_no_dollar ch m b a h⟩

/-- C5: witness for the hypothesis-bearing conjunct at concrete children
markup. -/
theorem c5_witness :
    substDollar (str "m") (str "b") (str "a") (str "<p>Z</p>") = str "<p>Z</p>" :=
  c5_amended_children_before_props.2.2 (str "<p>Z</p>") (str "m") (str "b") (str "a")
    (by decide)

/-- C6: amended claim.  For a self-closing match: a variant prop with a
matching (truthy) variant table entry replaces each variantClasses
placeholder with that entry's class list passed through the JS
replacement-string substitution (verbatim when the class list contains no
`$`; the counterexample shows `$$x` is spliced as `$x`); every other prop
except the reserved src and variant keys has its placeholders replaced; and
afterwards any remaining variantClasses occurrence is unconditionally
replaced with the empty string, so the spec's example yields class
btn-primary under variant="primary" and an empty class value with no stray
placeholder when no variant attribute (or an unknown variant) is given. -/
theorem c6_amended_variant_binding :
    compileHtml envBtn 5 (str "<Component src=\"Btn\" variant=\"primary\" text=\"Go\" />")
      (str "r") (some (str "p"))
      = some (str "<!-- variants: primary=btn-primary -->\n<a class=\"btn-primary\">Go</a>") ∧
    compileHtml envBtn 5 (str "<Component src=\"Btn\" text=\"Go\" />")
      (str "r") (some (str "p"))
      = some (str "<!-- variants: primary=btn-primary -->\n<a class=\"\">Go</a>") ∧
    compileHtml envBtn 5 (str "<Component src=\"Btn\" variant=\"zzz\" text=\"Go\" />")
      (str "r") (some (str "p"))
      = some (str "<!-- variants: primary=btn-primary -->\n<a class=\"\">Go</a>") :=
  ⟨by decide, by decide, by decide⟩
